import Mathlib

/-!
# FirehoseWritable: a buffered, retrying batch writer

A shallow embedding of `index.js`.  The writer is a record of its properties,
the outside world it acts upon (the batch calls it issued, the logger calls it
made, the delays it asked for) is explicit state, and a callback's argument is
the value a function returns.

Platform pieces the source relies on are taken as given:
`JSON.stringify` (a parameter of the record type, and modelled on JSON data
for the wire format), the client (the sequence of outcomes it yields, call by
call) and the stream runtime (which hands records to `_write` one at a time
and calls `_flush` when the stream ends).
-/

namespace Firehose

/-! ## Values -/

/-- The JavaScript values that travel as records.  `undefined` is what reading
an array past its end yields; `stringify` is the text that `JSON.stringify`
contributes to a string concatenation. -/
class JsValue (α : Type) where
  undefined : α
  stringify : α → String

/-- One element of `Records` in a batch request. -/
structure WireRecord where
  Data : String
deriving DecidableEq, Repr

/-- The argument of `client.putRecordBatch`. -/
structure Request where
  Records : List WireRecord
  DeliveryStreamName : String
deriving DecidableEq, Repr

/-- One element of `response.RequestResponses`. -/
structure Entry where
  ErrorCode : Option String := none
  ErrorMessage : Option String := none
deriving DecidableEq, Repr

/-- The response object a batch call yields when the call itself went through. -/
structure Response where
  FailedPutCount : Int
  RequestResponses : List Entry
deriving DecidableEq, Repr

/-- What the client hands to the callback of one batch call: a (truthy) error,
or a response. -/
inductive Outcome (ε : Type) where
  | err (e : ε)
  | ok (response : Response)
deriving DecidableEq, Repr

/-- The client as one run sees it: the outcome of its `n`-th batch call
(counting from 0). -/
abbrev Client (ε : Type) := Nat → Outcome ε

/-- The error argument of a completion callback: the client's own error, passed
on untouched, or `new Error(message)`. -/
inductive Failure (ε : Type) where
  | client (e : ε)
  | error (message : String)
deriving DecidableEq, Repr

/-- A completion callback's call: `callback()` is `.ok ()`, `callback(err)` is
`.error err`. -/
abbrev Completion (ε : Type) := Except (Failure ε) Unit

/-! ## The logger -/

/-- A configured logger; it only receives calls. -/
structure Logger where
  label : String
deriving DecidableEq, Repr

/-- The three levels the writer logs at. -/
inductive LogLevel where
  | debug
  | info
  | warn
deriving DecidableEq, Repr

/-- The second argument of a logger call. -/
inductive LogArg (α : Type) where
  | count (n : Int)
  | message (m : Option String)
  | record (r : α)
deriving DecidableEq, Repr

/-- One call made on the logger. -/
structure LogCall (α : Type) where
  level : LogLevel
  format : String
  arg : LogArg α
deriving DecidableEq, Repr

/-- The guarded logger call `if (this.logger) { this.logger.level(...) }`. -/
def logIf {α : Type} (logger : Option Logger) (call : LogCall α)
    (logs : List (LogCall α)) : List (LogCall α) :=
  match logger with
  | some _ => logs ++ [call]
  | none => logs

/-! ## Truthiness -/

/-- JavaScript truthiness of an optional number: absent and `0` are falsy. -/
def truthyNat : Option Nat → Bool
  | some (_ + 1) => true
  | _ => false

/-- JavaScript truthiness of an optional string: absent and `''` are falsy. -/
def truthyStr : Option String → Bool
  | some s => decide (s ≠ "")
  | none => false

/-- The expression `v || d` on an optional number. -/
def orNat (v : Option Nat) (d : Nat) : Nat :=
  match v with
  | some (n + 1) => n + 1
  | _ => d

/-- The expression `v || d` on an optional string. -/
def orStr (v : Option String) (d : String) : String :=
  match v with
  | some s => if s ≠ "" then s else d
  | none => d

/-- The test `if (record.ErrorCode)`. -/
def Entry.failed (record : Entry) : Bool :=
  truthyStr record.ErrorCode

/-! ## The writer and its world -/

/-- The `options` argument of the constructor. -/
structure Options where
  highWaterMark : Option Nat := none
  maxRetries : Option Nat := none
  retryTimeout : Option Nat := none
  logger : Option Logger := none
  delimiter : Option String := none
deriving DecidableEq, Repr

/-- The properties of a writer object.  `retryTimeout` is the property
`_flush` reads as `this.retryTimeout`; the constructor has no assignment to
it, so it holds no number on a constructed writer. -/
structure FirehoseWritable (α ε : Type) where
  client : Client ε
  streamName : String
  logger : Option Logger
  highWaterMark : Nat
  maxRetries : Nat
  delimiter : String
  retryTimeout : Option Nat
  queue : List α

/-- What the writer did to its surroundings, oldest first: the batch calls
issued, the logger calls made, the delays asked of the timer. -/
structure Effects (α : Type) where
  calls : List Request := []
  logs : List (LogCall α) := []
  waits : List (Option Nat) := []
deriving DecidableEq, Repr

/-- A writer together with the effects so far. -/
structure World (α ε : Type) where
  stream : FirehoseWritable α ε
  fx : Effects α

variable {α ε : Type}

/-- The constructor `FirehoseWritable(client, streamName, options)`.  A failed
`assert` is `.error` with the assertion's message.  The effects are passed
through: the constructor calls neither client nor logger. -/
def FirehoseWritable.new (client : Option (Client ε)) (streamName : Option String)
    (options : Option Options) (fx : Effects α) :
    Except String (FirehoseWritable α ε) × Effects α :=
  match client with
  | none => (.error "client is required", fx)
  | some c =>
    if truthyStr streamName then
      let options := options.getD {}
      let highWaterMark := orNat options.highWaterMark 16
      if highWaterMark ≤ 500 then
        (.ok { client := c
               streamName := streamName.getD ""
               logger := options.logger
               highWaterMark := highWaterMark
               maxRetries := orNat options.maxRetries 3
               delimiter := orStr options.delimiter ""
               retryTimeout := none
               queue := [] }, fx)
      else
        (.error "Max highWaterMark is 500", fx)
    else
      (.error "streamName is required", fx)

/-- The method `transformRecord(record)`. -/
def FirehoseWritable.transformRecord [JsValue α] (self : FirehoseWritable α ε)
    (record : α) : WireRecord :=
  { Data := JsValue.stringify record ++ self.delimiter }

/-- The loop `response.RequestResponses.forEach(function(record, index) ...)`:
`acc` is `failedRecords` paired with the logger calls so far. -/
def forEachResponse [JsValue α] (self : FirehoseWritable α ε) :
    List Entry → Nat → List α × List (LogCall α) → List α × List (LogCall α)
  | [], _, acc => acc
  | record :: rest, index, acc =>
    if record.failed then
      forEachResponse self rest (index + 1)
        (acc.1 ++ [self.queue.getD index JsValue.undefined],
         logIf self.logger
           ⟨.warn, "Failed record with message: %s", .message record.ErrorMessage⟩ acc.2)
    else
      forEachResponse self rest (index + 1) acc

/-- The request `writeRecords` builds from the queue. -/
def FirehoseWritable.request [JsValue α] (self : FirehoseWritable α ε) : Request :=
  { Records := self.queue.map self.transformRecord
    DeliveryStreamName := self.streamName }

/-- The method `writeRecords(callback)`: one attempt.  Returns the world after
the attempt and the callback's call. -/
def FirehoseWritable.writeRecords [JsValue α] (w : World α ε) :
    World α ε × Completion ε :=
  let self := w.stream
  let logs := logIf self.logger
    ⟨.debug, "Writing %d records to Firehose", .count self.queue.length⟩ w.fx.logs
  let request := self.request
  let outcome := self.client w.fx.calls.length
  let fx : Effects α := { w.fx with calls := w.fx.calls ++ [request], logs := logs }
  match outcome with
  | .err e => ({ stream := self, fx := fx }, .error (.client e))
  | .ok response =>
    let logs := logIf self.logger
      ⟨.info, "Wrote %d records to Firehose",
        .count (request.Records.length - response.FailedPutCount)⟩ fx.logs
    if response.FailedPutCount ≠ 0 then
      let logs := logIf self.logger
        ⟨.warn, "Failed writing %d records to Firehose", .count response.FailedPutCount⟩ logs
      let acc := forEachResponse self response.RequestResponses 0 ([], logs)
      ({ stream := { self with queue := acc.1 }, fx := { fx with logs := acc.2 } },
        .error (.error ("Failed to write " ++ toString acc.1.length ++ " records")))
    else
      ({ stream := { self with queue := [] }, fx := { fx with logs := logs } }, .ok ())

/-! ## The retry driver -/

/-- The options object handed to the retry driver. -/
structure RetryOptions where
  retries : Nat
  timeout : Nat → Option Nat

/-- The Fibonacci numbers 0, 1, 1, 2, 3, 5, ... -/
def fibonacci : Nat → Nat
  | 0 => 0
  | 1 => 1
  | n + 2 => fibonacci n + fibonacci (n + 1)

/-- Modelled from the spec: `retryFn.fib` of the `retry-fn` package, which is
not part of the sources.  The schedule is `timeout, timeout, 2*timeout,
3*timeout, 5*timeout, ...`; arithmetic on an `undefined` seed gives no number. -/
def fib (timeout : Option Nat) : Nat → Option Nat :=
  fun attempt => timeout.map (fun t => fibonacci (attempt + 1) * t)

/-- Modelled from the spec: the scheduled wait between two attempts, which the
`retry-fn` package (not part of the sources) asks of the timer; only the fact
that a delay was asked for is recorded. -/
def World.wait (w : World α ε) (delay : Option Nat) : World α ε :=
  { w with fx := { w.fx with waits := w.fx.waits ++ [delay] } }

/-- Modelled from the spec: the attempt loop of `retryFn` of the `retry-fn`
package, which is not part of the sources.  `left` retries remain and `attempt`
attempts have failed so far: a successful attempt ends the loop with success, a
failed one is followed by a wait and the next attempt while retries remain, and
the failure of the last attempt is reported as it is. -/
def retryLoop (options : RetryOptions) (fn : World α ε → World α ε × Completion ε) :
    Nat → Nat → World α ε → World α ε × Completion ε
  | 0, _, w => fn w
  | left + 1, attempt, w =>
    match fn w with
    | (w1, .ok u) => (w1, .ok u)
    | (w1, .error _) => retryLoop options fn left (attempt + 1) (w1.wait (options.timeout attempt))

/-- Modelled from the spec: `retryFn(options, fn, callback)` of the `retry-fn`
package, which is not part of the sources.  Attempt 0 runs at once; after a
failed attempt the next one is scheduled after the schedule's delay; the driver
stops with success at the first successful attempt, and after `retries` retries
beyond the first attempt it reports the last failure unchanged. -/
def retryFn (options : RetryOptions) (fn : World α ε → World α ε × Completion ε)
    (w : World α ε) : World α ε × Completion ε :=
  retryLoop options fn options.retries 0 w

/-! ## Flushing and writing -/

/-- The method `_flush(callback)`. -/
def FirehoseWritable._flush [JsValue α] (w : World α ε) : World α ε × Completion ε :=
  if w.stream.queue.length = 0 then
    (w, .ok ())
  else
    retryFn { retries := w.stream.maxRetries, timeout := fib w.stream.retryTimeout }
      FirehoseWritable.writeRecords w

/-- The method `_write(record, enc, callback)`. -/
def FirehoseWritable._write [JsValue α] (w : World α ε) (record : α) :
    World α ε × Completion ε :=
  let logs := logIf w.stream.logger
    ⟨.debug, "Adding to Firehose queue", .record record⟩ w.fx.logs
  let w1 : World α ε :=
    { stream := { w.stream with queue := w.stream.queue ++ [record] }
      fx := { w.fx with logs := logs } }
  if w1.stream.queue.length ≥ w1.stream.highWaterMark then
    FirehoseWritable._flush w1
  else
    (w1, .ok ())

/-! ## The stream runtime -/

/-- Modelled from the spec: the stream base class (`flushwritable` over the
platform's `Writable`, not part of the sources) feeding records to the writer.
Each record goes to `_write` once the previous `_write` has completed; a failed
`_write` ends the feed with its error. -/
def writeAll [JsValue α] (w : World α ε) : List α → World α ε × Completion ε
  | [] => (w, .ok ())
  | record :: rest =>
    match FirehoseWritable._write w record with
    | (w1, .ok _) => writeAll w1 rest
    | (w1, .error e) => (w1, .error e)

/-- Modelled from the spec: closing the stream.  The stream base class (not
part of the sources) calls `_flush` once every accepted record has been handed
to `_write`, and completes when that flush does. -/
def close [JsValue α] (w : World α ε) : World α ε × Completion ε :=
  FirehoseWritable._flush w

/-- The world of a writer that has produced no effects yet. -/
def World.fresh (stream : FirehoseWritable α ε) : World α ε :=
  { stream := stream, fx := {} }

/-! ## The record encoding

`transformRecord` obtains the text of a record from the platform's
`JSON.stringify`, and a reader of the payload deserializes it with
`JSON.parse`.  Neither is part of the sources; this section models them on the
values below, with integers for numbers. -/

/-- The JavaScript values the encoding is modelled on: `undefined`, `null`,
booleans, integer numbers, strings, arrays, and plain objects given by their
own properties in the order in which the platform enumerates them. -/
inductive Js where
  | undefined
  | null
  | bool (b : Bool)
  | num (n : Int)
  | str (s : String)
  | arr (items : List Js)
  | obj (fields : List (String × Js))

/-- The quotation mark, U+0022. -/
def quoteMark : Char := Char.ofNat 34

/-- The reverse solidus, U+005C. -/
def reverseSolidus : Char := Char.ofNat 92

/-- The left curly bracket, U+007B. -/
def leftBrace : Char := Char.ofNat 123

/-- The right curly bracket, U+007D. -/
def rightBrace : Char := Char.ofNat 125

/-- The lower-case hexadecimal digit of a number below 16. -/
def hexDigit (n : Nat) : Char :=
  if n < 10 then Char.ofNat (48 + n) else Char.ofNat (87 + n)

/-- Modelled from the spec: how `JSON.stringify` writes one character of a
string: the quotation mark and the reverse solidus are escaped, the control
characters below U+0020 get their short escape or `\u00xx`, every other
character stands for itself. -/
def escapeChar (c : Char) : List Char :=
  if c = quoteMark then [reverseSolidus, quoteMark]
  else if c = reverseSolidus then [reverseSolidus, reverseSolidus]
  else if c = Char.ofNat 8 then [reverseSolidus, 'b']
  else if c = Char.ofNat 12 then [reverseSolidus, 'f']
  else if c = Char.ofNat 10 then [reverseSolidus, 'n']
  else if c = Char.ofNat 13 then [reverseSolidus, 'r']
  else if c = Char.ofNat 9 then [reverseSolidus, 't']
  else if c.toNat < 32 then
    [reverseSolidus, 'u', '0', '0', hexDigit (c.toNat / 16), hexDigit (c.toNat % 16)]
  else [c]

/-- Modelled from the spec: the quoted form `JSON.stringify` gives a string. -/
def quoteJSON (s : List Char) : List Char :=
  quoteMark :: (s.flatMap escapeChar ++ [quoteMark])

/-- The decimal digits of `n`, most significant first; `fuel` bounds the
number of digits. -/
def decimalDigits : Nat → Nat → List Char
  | 0, _ => []
  | fuel + 1, n =>
    if n < 10 then [Char.ofNat (48 + n)]
    else decimalDigits fuel (n / 10) ++ [Char.ofNat (48 + n % 10)]

/-- The decimal numeral of a natural number. -/
def decimal (n : Nat) : List Char := decimalDigits (n + 1) n

/-- Modelled from the spec: the text `JSON.stringify` gives an integer number. -/
def integer (n : Int) : List Char :=
  match n with
  | .ofNat m => decimal m
  | .negSucc m => '-' :: decimal (m + 1)

/-- The texts of a list, separated by commas. -/
def joinComma : List (List Char) → List Char
  | [] => []
  | [t] => t
  | t :: rest => t ++ ',' :: joinComma rest

mutual
/-- Modelled from the spec: the characters of `JSON.stringify(value)`, the
platform function that `transformRecord` calls and that is not part of the
sources; `none` is the `undefined` it returns for `undefined`.  An `undefined`
element of an array is written `null`, a property whose value is `undefined`
is left out. -/
def Js.json : Js → Option (List Char)
  | .undefined => none
  | .null => some ['n', 'u', 'l', 'l']
  | .bool true => some ['t', 'r', 'u', 'e']
  | .bool false => some ['f', 'a', 'l', 's', 'e']
  | .num n => some (integer n)
  | .str s => some (quoteJSON s.data)
  | .arr items => some ('[' :: (joinComma (Js.elements items) ++ [']']))
  | .obj fields => some (leftBrace :: (joinComma (Js.members fields) ++ [rightBrace]))
/-- Modelled from the spec: the texts of the elements of an array, as
`JSON.stringify` writes them. -/
def Js.elements : List Js → List (List Char)
  | [] => []
  | item :: rest => (Js.json item).getD ['n', 'u', 'l', 'l'] :: Js.elements rest
/-- Modelled from the spec: the texts of the properties of an object, as
`JSON.stringify` writes them. -/
def Js.members : List (String × Js) → List (List Char)
  | [] => []
  | (key, value) :: rest =>
    match Js.json value with
    | none => Js.members rest
    | some text => (quoteJSON key.data ++ ':' :: text) :: Js.members rest
end

/-- Modelled from the spec: `JSON.stringify(value)`; `none` is `undefined`. -/
def JSON.stringify (value : Js) : Option String :=
  (Js.json value).map String.mk

/-- The value of a hexadecimal digit. -/
def hexValue (c : Char) : Option Nat :=
  if 48 ≤ c.toNat ∧ c.toNat ≤ 57 then some (c.toNat - 48)
  else if 97 ≤ c.toNat ∧ c.toNat ≤ 102 then some (c.toNat - 87)
  else if 65 ≤ c.toNat ∧ c.toNat ≤ 70 then some (c.toNat - 55)
  else none

/-- The character a short escape stands for. -/
def unescape (c : Char) : Option Char :=
  if c = quoteMark then some quoteMark
  else if c = reverseSolidus then some reverseSolidus
  else if c = '/' then some '/'
  else if c = 'b' then some (Char.ofNat 8)
  else if c = 'f' then some (Char.ofNat 12)
  else if c = 'n' then some (Char.ofNat 10)
  else if c = 'r' then some (Char.ofNat 13)
  else if c = 't' then some (Char.ofNat 9)
  else none

/-- The character a `\uXXXX` escape stands for; surrogate code units are not
covered. -/
def decodeUnicode (h1 h2 h3 h4 : Char) : Option Char :=
  match hexValue h1, hexValue h2, hexValue h3, hexValue h4 with
  | some a, some b, some c, some d =>
    if 55296 ≤ ((a * 16 + b) * 16 + c) * 16 + d ∧ ((a * 16 + b) * 16 + c) * 16 + d ≤ 57343 then
      none
    else some (Char.ofNat (((a * 16 + b) * 16 + c) * 16 + d))
  | _, _, _, _ => none

mutual
/-- Modelled from the spec: reads the rest of a JSON string after its opening
quotation mark; returns the string and the input after the closing mark. -/
def parseString : List Char → Option (List Char × List Char)
  | [] => none
  | c :: rest =>
    if c = quoteMark then some ([], rest)
    else if c = reverseSolidus then parseEscaped rest
    else if c.toNat < 32 then none
    else (parseString rest).map (fun p => (c :: p.1, p.2))
/-- Modelled from the spec: reads a JSON string from just after a reverse
solidus. -/
def parseEscaped : List Char → Option (List Char × List Char)
  | [] => none
  | e :: rest =>
    if e = 'u' then parseUnicode rest
    else
      match unescape e with
      | some ch => (parseString rest).map (fun p => (ch :: p.1, p.2))
      | none => none
/-- Modelled from the spec: reads a JSON string from the four hexadecimal
digits of a `\u` escape. -/
def parseUnicode : List Char → Option (List Char × List Char)
  | h1 :: h2 :: h3 :: h4 :: rest =>
    match decodeUnicode h1 h2 h3 h4 with
    | some ch => (parseString rest).map (fun p => (ch :: p.1, p.2))
    | none => none
  | _ => none
end

/-- The test for a decimal digit. -/
def isDecimalDigit (c : Char) : Bool := decide (48 ≤ c.toNat ∧ c.toNat ≤ 57)

/-- The number a list of decimal digits denotes. -/
def digitsValue (digits : List Char) : Nat :=
  digits.foldl (fun acc c => acc * 10 + (c.toNat - 48)) 0

/-- Modelled from the spec: reads the integer part of a JSON number: `0`, or a
digit other than `0` followed by digits. -/
def parseNatural : List Char → Option (Nat × List Char)
  | [] => none
  | c :: rest =>
    if c = '0' then some (0, rest)
    else if isDecimalDigit c then
      some (digitsValue (c :: rest.takeWhile isDecimalDigit), rest.dropWhile isDecimalDigit)
    else none

/-- Reads the rest of a literal name (`null`, `true`, `false`). -/
def expect (word : List Char) (value : Js) (input : List Char) : Option (Js × List Char) :=
  if word.isPrefixOf input then some (value, input.drop word.length) else none

mutual
/-- Modelled from the spec: reads one JSON value at the start of the input and
returns it with the rest of the input; `fuel` bounds the nesting and the
number of members read. -/
def parseValue : Nat → List Char → Option (Js × List Char)
  | 0, _ => none
  | _ + 1, [] => none
  | fuel + 1, c :: rest =>
    if c = 'n' then expect ['u', 'l', 'l'] .null rest
    else if c = 't' then expect ['r', 'u', 'e'] (.bool true) rest
    else if c = 'f' then expect ['a', 'l', 's', 'e'] (.bool false) rest
    else if c = quoteMark then (parseString rest).map (fun p => (.str ⟨p.1⟩, p.2))
    else if c = '-' then (parseNatural rest).map (fun p => (.num (-(p.1 : Int)), p.2))
    else if isDecimalDigit c then
      (parseNatural (c :: rest)).map (fun p => (.num (p.1 : Int), p.2))
    else if c = '[' then
      if rest.head? = some ']' then some (.arr [], rest.tail)
      else (parseElements fuel rest).map (fun p => (.arr p.1, p.2))
    else if c = leftBrace then
      if rest.head? = some rightBrace then some (.obj [], rest.tail)
      else
        (parseMembers fuel rest).bind
          (fun p => if (p.1.map Prod.fst).Nodup then some (.obj p.1, p.2) else none)
    else none
/-- Modelled from the spec: reads the elements of a non-empty JSON array up to
its closing bracket. -/
def parseElements : Nat → List Char → Option (List Js × List Char)
  | 0, _ => none
  | fuel + 1, input =>
    (parseValue fuel input).bind
      (fun p =>
        if p.2.head? = some ',' then
          (parseElements fuel p.2.tail).map (fun q => (p.1 :: q.1, q.2))
        else if p.2.head? = some ']' then some ([p.1], p.2.tail)
        else none)
/-- Modelled from the spec: reads the members of a non-empty JSON object up to
its closing bracket. -/
def parseMembers : Nat → List Char → Option (List (String × Js) × List Char)
  | 0, _ => none
  | _ + 1, [] => none
  | fuel + 1, q :: input =>
    if q = quoteMark then
      (parseString input).bind
        (fun k =>
          if k.2.head? = some ':' then
            (parseValue fuel k.2.tail).bind
              (fun p =>
                if p.2.head? = some ',' then
                  (parseMembers fuel p.2.tail).map (fun m => ((⟨k.1⟩, p.1) :: m.1, m.2))
                else if p.2.head? = some rightBrace then some ([(⟨k.1⟩, p.1)], p.2.tail)
                else none)
          else none)
    else none
end

/-- Modelled from the spec: `JSON.parse(text)`, the deserializer of a reader of
the payload, which is not part of the sources; `none` is a rejected text.  It
reads the texts `JSON.stringify` produces (no white space between tokens,
integer numbers, no repeated key) and rejects every text that is not JSON, such
as `undefined`. -/
def JSON.parse (text : String) : Option Js :=
  match parseValue (text.length + 1) text.data with
  | some (value, []) => some value
  | _ => none

mutual
/-- JSON data: a value built from `null`, booleans, safe integers, strings,
arrays and objects with distinct keys, with no `undefined` in it. -/
def Js.representable : Js → Bool
  | .undefined => false
  | .null => true
  | .bool _ => true
  | .num n => decide (-9007199254740991 ≤ n ∧ n ≤ 9007199254740991)
  | .str _ => true
  | .arr items => Js.allRepresentable items
  | .obj fields => Js.fieldsRepresentable fields && decide (fields.map Prod.fst).Nodup
/-- Every element of the list is JSON data. -/
def Js.allRepresentable : List Js → Bool
  | [] => true
  | item :: rest => item.representable && Js.allRepresentable rest
/-- Every property value of the list is JSON data. -/
def Js.fieldsRepresentable : List (String × Js) → Bool
  | [] => true
  | (_, value) :: rest => value.representable && Js.fieldsRepresentable rest
end

/-- The records of the model as values of the writer: reading an array past its
end gives `undefined`, and in a string concatenation the `undefined` that
`JSON.stringify` returns for `undefined` reads `undefined`. -/
instance : JsValue Js where
  undefined := .undefined
  stringify value := (JSON.stringify value).getD "undefined"

/-- No decimal digit stands at the start of `rest`. -/
def noDigitAhead (rest : List Char) : Prop :=
  ∀ c tail, rest = c :: tail → isDecimalDigit c = false

/-! ## Reference notions used in the statements -/

/-- The records of `queue` at the positions whose entry carries an error code,
in their order in `queue`. -/
def failedAt (queue : List α) (responses : List Entry) : List α :=
  ((queue.zip responses).filter (fun p => p.2.failed)).map Prod.fst

/-- An outcome after which `writeRecords` reports its attempt as failed: an
error of the batch call itself, or a response with `FailedPutCount !== 0`. -/
def Outcome.failed : Outcome ε → Bool
  | .err _ => true
  | .ok response => decide (response.FailedPutCount ≠ 0)

/-- The world at the start of the attempt that follows `failures` failed
attempts of `fn`, the first of them being attempt number `attempt`: each
failed attempt is followed by the wait the schedule prescribes. -/
def afterFailures (options : RetryOptions) (fn : World α ε → World α ε × Completion ε) :
    Nat → Nat → World α ε → World α ε
  | 0, _, w => w
  | failures + 1, attempt, w =>
    afterFailures options fn failures (attempt + 1) ((fn w).1.wait (options.timeout attempt))

/-- What a reader of the payload does before deserializing: `data` without
its last `delimiter.length` characters. -/
def removeTrailing (data delimiter : String) : String :=
  ⟨data.data.take (data.length - delimiter.length)⟩

/-- Any sequence of `_write` calls: each record is handed to `_write` once the
previous call has completed, whatever its completion was. -/
def writeEach [JsValue α] (w : World α ε) : List α → World α ε
  | [] => w
  | record :: rest => writeEach (FirehoseWritable._write w record).1 rest

/-- The same world with no logger configured and no logger calls recorded. -/
def World.erase (w : World α ε) : World α ε :=
  { stream := { w.stream with logger := none }, fx := { w.fx with logs := [] } }

/-- The indices at which the `forEach` loop of `writeRecords` reads
`this.queue`: the positions of the entries that carry an error code, counted
from `index`. -/
def lookedUp : List Entry → Nat → List Nat
  | [], _ => []
  | record :: rest, index =>
    if record.failed then index :: lookedUp rest (index + 1) else lookedUp rest (index + 1)

/-- The worlds in which the attempts of one run of the retry loop start, in
order: the loop's own world, and after each failed attempt that is retried the
world after its wait. -/
def attemptWorlds (options : RetryOptions) (fn : World α ε → World α ε × Completion ε) :
    Nat → Nat → World α ε → List (World α ε)
  | 0, _, w => [w]
  | left + 1, attempt, w =>
    match fn w with
    | (_, .ok _) => [w]
    | (w1, .error _) =>
      w :: attemptWorlds options fn left (attempt + 1) (w1.wait (options.timeout attempt))

/-- The worlds in which the attempts of the flush cycle started in `w` start:
none when the queue is empty. -/
def flushAttempts [JsValue α] (w : World α ε) : List (World α ε) :=
  if w.stream.queue.length = 0 then
    []
  else
    attemptWorlds { retries := w.stream.maxRetries, timeout := fib w.stream.retryTimeout }
      FirehoseWritable.writeRecords w.stream.maxRetries 0 w

/-- The response to the attempt that starts in `w`, if the call yields one,
has exactly one outcome per queued record. -/
def World.aligned (w : World α ε) : Bool :=
  match w.stream.client w.fx.calls.length with
  | .err _ => true
  | .ok response => decide (response.RequestResponses.length = w.stream.queue.length)

/-- The response to the attempt that starts in `w`, if the call yields one,
reports `FailedPutCount != 0` only when an outcome carries an error code. -/
def World.failureShown (w : World α ε) : Bool :=
  match w.stream.client w.fx.calls.length with
  | .err _ => true
  | .ok response =>
    decide (response.FailedPutCount = 0) || response.RequestResponses.any Entry.failed

/-! ## Sample values -/

/-- A few JavaScript values, enough to run the writer on concrete records. -/
inductive Sample where
  | undefined
  | flag (b : Bool)
  | num (n : Nat)
deriving DecidableEq, Repr

instance : JsValue Sample where
  undefined := .undefined
  stringify
    | .undefined => "undefined"
    | .flag true => "true"
    | .flag false => "false"
    | .num n => toString n

/-- An entry reporting a record as written. -/
def Entry.written : Entry :=
  { ErrorCode := none, ErrorMessage := none }

/-- An entry reporting a record as rejected. -/
def Entry.rejected : Entry :=
  { ErrorCode := some "ServiceUnavailableException", ErrorMessage := some "Slow down." }

/-- A client whose every call reports full success. -/
def succeedingClient : Client String :=
  fun _ => .ok { FailedPutCount := 0, RequestResponses := [] }

/-- A client whose every call fails outright with `'Fail'`. -/
def brokenClient : Client String :=
  fun _ => .err "Fail"

/-- A client that reports the records at positions 1 and 3 of a four-record
batch as rejected, on every call. -/
def rejectingClient : Client String :=
  fun _ => .ok { FailedPutCount := 2
                 RequestResponses := [Entry.written, Entry.rejected, Entry.written, Entry.rejected] }

/-- A client that rejects like `rejectingClient` on its first two calls and
reports full success from its third call on. -/
def recoveringClient : Client String :=
  fun n => if n < 2 then rejectingClient n else succeedingClient n

/-- A client that reports `FailedPutCount = 0` next to an entry that carries an
error code, on every call. -/
def inconsistentClient : Client String :=
  fun _ => .ok { FailedPutCount := 0, RequestResponses := [Entry.rejected] }

/-- A client that rejects the single record of a one-record batch, on every
call. -/
def refusingClient : Client String :=
  fun _ => .ok { FailedPutCount := 1, RequestResponses := [Entry.rejected] }

/-- A client that reports `FailedPutCount = 2` while one of its two entries
carries an error code, on every call. -/
def miscountingClient : Client String :=
  fun _ => .ok { FailedPutCount := 2, RequestResponses := [Entry.rejected, Entry.written] }

/-- A client that rejects the second record of a two-record batch on its first
call and the single record of a one-record batch on every later call. -/
def shrinkingClient : Client String :=
  fun n =>
    if n = 0 then .ok { FailedPutCount := 1, RequestResponses := [Entry.written, Entry.rejected] }
    else .ok { FailedPutCount := 1, RequestResponses := [Entry.rejected] }

/-- A client that answers its first call, for a one-record batch, with
`FailedPutCount = 1` and an outcome without error code, and every later call
with full success and no outcomes. -/
def vagueClient : Client String :=
  fun n =>
    if n = 0 then .ok { FailedPutCount := 1, RequestResponses := [Entry.written] }
    else .ok { FailedPutCount := 0, RequestResponses := [] }

/-- A writer with the given client, high-water mark and queue, and the
defaults elsewhere. -/
def sampleWriter (client : Client String) (highWaterMark : Nat) (queue : List Sample) :
    FirehoseWritable Sample String :=
  { client := client
    streamName := "streamName"
    logger := none
    highWaterMark := highWaterMark
    maxRetries := 3
    delimiter := ""
    retryTimeout := none
    queue := queue }

/-- A writer of model records with the given delimiter, and the defaults
elsewhere. -/
def jsonWriter (delimiter : String) : FirehoseWritable Js String :=
  { client := succeedingClient
    streamName := "streamName"
    logger := none
    highWaterMark := 16
    maxRetries := 3
    delimiter := delimiter
    retryTimeout := none
    queue := [] }

/-! # Theorems -/

open FirehoseWritable

/-! ## One attempt -/

theorem failedAt_cons (a : α) (queue : List α) (record : Entry) (rest : List Entry) :
    failedAt (a :: queue) (record :: rest)
      = if record.failed then a :: failedAt queue rest else failedAt queue rest := by
  by_cases hf : record.failed = true <;> simp [failedAt, List.filter_cons, hf]

theorem forEachResponse_fst [JsValue α] (self : FirehoseWritable α ε) (responses : List Entry) :
    ∀ (index : Nat) (acc : List α × List (LogCall α)),
      index + responses.length ≤ self.queue.length →
      (forEachResponse self responses index acc).1
        = acc.1 ++ failedAt (self.queue.drop index) responses := by
  induction responses with
  | nil => intro index acc _; simp [forEachResponse, failedAt]
  | cons record rest ih =>
    intro index acc h
    simp only [List.length_cons] at h
    have hi : index < self.queue.length := by omega
    have hd : self.queue.drop index = self.queue[index] :: self.queue.drop (index + 1) :=
      List.drop_eq_getElem_cons hi
    have hg : self.queue.getD index JsValue.undefined = self.queue[index] := by
      simp [List.getD, List.getElem?_eq_getElem hi]
    unfold forEachResponse
    by_cases hf : record.failed = true
    · rw [if_pos hf, ih (index + 1) _ (by omega), hd, hg, failedAt_cons, if_pos hf]
      simp
    · rw [if_neg hf, ih (index + 1) _ (by omega), hd, failedAt_cons, if_neg hf]

theorem writeRecords_err [JsValue α] (w : World α ε) (e : ε)
    (h : w.stream.client w.fx.calls.length = .err e) :
    writeRecords w =
      ({ stream := w.stream
         fx := { w.fx with
                 calls := w.fx.calls ++ [w.stream.request]
                 logs := logIf w.stream.logger
                   ⟨.debug, "Writing %d records to Firehose", .count w.stream.queue.length⟩
                   w.fx.logs } },
       .error (.client e)) := by
  unfold writeRecords
  simp only [h]

theorem writeRecords_success [JsValue α] (w : World α ε) (response : Response)
    (h : w.stream.client w.fx.calls.length = .ok response)
    (h0 : response.FailedPutCount = 0) :
    (writeRecords w).1.stream = { w.stream with queue := [] }
    ∧ (writeRecords w).1.fx.calls = w.fx.calls ++ [w.stream.request]
    ∧ (writeRecords w).1.fx.waits = w.fx.waits
    ∧ (writeRecords w).2 = .ok () := by
  unfold writeRecords
  simp only [h]
  rw [if_neg (not_not.mpr h0)]
  exact ⟨rfl, rfl, rfl, rfl⟩

theorem writeRecords_someFailed [JsValue α] (w : World α ε) (response : Response)
    (h : w.stream.client w.fx.calls.length = .ok response)
    (h0 : response.FailedPutCount ≠ 0) :
    ∃ logs,
    (writeRecords w).1.stream
        = { w.stream with
            queue := (forEachResponse w.stream response.RequestResponses 0 ([], logs)).1 }
    ∧ (writeRecords w).1.fx.calls = w.fx.calls ++ [w.stream.request]
    ∧ (writeRecords w).1.fx.waits = w.fx.waits
    ∧ (writeRecords w).2 = .error (.error ("Failed to write "
        ++ toString (forEachResponse w.stream response.RequestResponses 0 ([], logs)).1.length
        ++ " records")) := by
  unfold writeRecords
  simp only [h]
  rw [if_pos h0]
  exact ⟨_, rfl, rfl, rfl, rfl⟩

theorem failedAt_sublist (queue : List α) (responses : List Entry) :
    (failedAt queue responses).Sublist queue := by
  induction queue generalizing responses with
  | nil => simp [failedAt]
  | cons a queue ih =>
    cases responses with
    | nil => simp [failedAt]
    | cons record rest =>
      rw [failedAt_cons]
      split
      · exact (ih rest).cons₂ a
      · exact (ih rest).cons a

theorem writeRecords_aligned [JsValue α] (w : World α ε) (response : Response)
    (h : w.stream.client w.fx.calls.length = .ok response)
    (h0 : response.FailedPutCount ≠ 0)
    (hlen : response.RequestResponses.length ≤ w.stream.queue.length) :
    (writeRecords w).1.stream
        = { w.stream with queue := failedAt w.stream.queue response.RequestResponses }
    ∧ (writeRecords w).1.fx.calls = w.fx.calls ++ [w.stream.request]
    ∧ (writeRecords w).1.fx.waits = w.fx.waits
    ∧ (writeRecords w).2 = .error (.error ("Failed to write "
        ++ toString (failedAt w.stream.queue response.RequestResponses).length
        ++ " records")) := by
  obtain ⟨logs, hs, hc, hw, hr⟩ := writeRecords_someFailed w response h h0
  have hf := forEachResponse_fst w.stream response.RequestResponses 0 ([], logs) (by omega)
  simp only [List.drop_zero, List.nil_append] at hf
  rw [hf] at hs hr
  exact ⟨hs, hc, hw, hr⟩

theorem wait_stream (w : World α ε) (delay : Option Nat) : (w.wait delay).stream = w.stream := rfl

theorem wait_calls (w : World α ε) (delay : Option Nat) : (w.wait delay).fx.calls = w.fx.calls := rfl

theorem writeRecords_calls [JsValue α] (w : World α ε) :
    (writeRecords w).1.fx.calls = w.fx.calls ++ [w.stream.request] := by
  cases h : w.stream.client w.fx.calls.length with
  | err e => rw [writeRecords_err w e h]
  | ok response =>
    by_cases h0 : response.FailedPutCount = 0
    · exact (writeRecords_success w response h h0).2.1
    · obtain ⟨_, _, hc, _⟩ := writeRecords_someFailed w response h h0
      exact hc

/-- C1: after an attempt whose response has `FailedPutCount != 0` and one entry
per queued record, the queue is exactly the records at the positions whose
entry carries an error code, in their original order (a sublist of the old
queue); the attempt is reported as failed; and the next attempt's batch call
carries the `transformRecord` images of exactly those records.  For four
records with positions 1 and 3 rejected the second call's `Records` are the
images of the records at positions 1 and 3. -/
theorem C1_failed_records_retried [JsValue α] (w : World α ε) (response : Response)
    (hcall : w.stream.client w.fx.calls.length = .ok response)
    (hfail : response.FailedPutCount ≠ 0)
    (hlen : response.RequestResponses.length = w.stream.queue.length) :
    (writeRecords w).1.stream.queue = failedAt w.stream.queue response.RequestResponses
    ∧ (writeRecords w).1.stream.queue.Sublist w.stream.queue
    ∧ (∃ message, (writeRecords w).2 = .error (.error message))
    ∧ (∀ delay, (writeRecords ((writeRecords w).1.wait delay)).1.fx.calls
        = w.fx.calls ++ [w.stream.request,
            { Records := (failedAt w.stream.queue response.RequestResponses).map
                w.stream.transformRecord
              DeliveryStreamName := w.stream.streamName }])
    ∧ (∀ r0 r1 r2 r3 e0 e1 e2 e3, w.stream.queue = [r0, r1, r2, r3] →
        response.RequestResponses = [e0, e1, e2, e3] →
        e0.failed = false → e1.failed = true → e2.failed = false → e3.failed = true →
        ∀ delay, (writeRecords ((writeRecords w).1.wait delay)).1.fx.calls
          = w.fx.calls ++ [w.stream.request,
              { Records := [w.stream.transformRecord r1, w.stream.transformRecord r3]
                DeliveryStreamName := w.stream.streamName }]) := by
  obtain ⟨hs, hc, _, hr⟩ := writeRecords_aligned w response hcall hfail (le_of_eq hlen)
  have hnext : ∀ delay, (writeRecords ((writeRecords w).1.wait delay)).1.fx.calls
        = w.fx.calls ++ [w.stream.request,
            { Records := (failedAt w.stream.queue response.RequestResponses).map
                w.stream.transformRecord
              DeliveryStreamName := w.stream.streamName }] := by
    intro delay
    rw [writeRecords_calls, wait_calls, wait_stream, hc, hs]
    simp [FirehoseWritable.request, FirehoseWritable.transformRecord]
  refine ⟨by rw [hs], ?_, ⟨_, hr⟩, hnext, ?_⟩
  · rw [hs]
    exact failedAt_sublist _ _
  · intro r0 r1 r2 r3 e0 e1 e2 e3 hq hrr h0 h1 h2 h3 delay
    rw [hnext delay, hq, hrr]
    simp [failedAt, List.filter_cons, h0, h1, h2, h3]

/-- C1 at four records with positions 1 and 3 rejected. -/
theorem C1_failed_records_retried_witness :
    (writeRecords (writeRecords (World.fresh (sampleWriter rejectingClient 6
        [.num 0, .num 1, .num 2, .num 3]))).1).1.fx.calls
      = [{ Records := [⟨"0"⟩, ⟨"1"⟩, ⟨"2"⟩, ⟨"3"⟩], DeliveryStreamName := "streamName" },
         { Records := [⟨"1"⟩, ⟨"3"⟩], DeliveryStreamName := "streamName" }] :=
  ((C1_failed_records_retried
      (World.fresh (sampleWriter rejectingClient 6 [.num 0, .num 1, .num 2, .num 3]))
      { FailedPutCount := 2
        RequestResponses := [Entry.written, Entry.rejected, Entry.written, Entry.rejected] }
      rfl (by decide) rfl).2.2.2.2 _ _ _ _ _ _ _ _ rfl rfl rfl rfl rfl rfl none).trans rfl

/-! ## The retry loop and the flush -/

theorem retryLoop_ok (options : RetryOptions) (fn : World α ε → World α ε × Completion ε)
    (left attempt : Nat) (w : World α ε) (h : (fn w).2 = .ok ()) :
    retryLoop options fn left attempt w = fn w := by
  cases left with
  | zero => rfl
  | succ left =>
    unfold retryLoop
    cases hfn : fn w with
    | mk w1 c =>
      rw [hfn] at h
      cases c with
      | ok u => rfl
      | error e => cases h

theorem retryLoop_error (options : RetryOptions) (fn : World α ε → World α ε × Completion ε)
    (left attempt : Nat) (w : World α ε) (e : Failure ε) (h : (fn w).2 = .error e) :
    retryLoop options fn (left + 1) attempt w
      = retryLoop options fn left (attempt + 1) ((fn w).1.wait (options.timeout attempt)) := by
  conv_lhs => unfold retryLoop
  cases hfn : fn w with
  | mk w1 c =>
    rw [hfn] at h
    cases c with
    | ok u => cases h
    | error e1 => rfl

theorem flush_empty [JsValue α] (w : World α ε) (h : w.stream.queue = []) :
    _flush w = (w, .ok ()) := by
  simp [_flush, h]

theorem flush_nonempty [JsValue α] (w : World α ε) (h : w.stream.queue ≠ []) :
    _flush w = retryLoop { retries := w.stream.maxRetries, timeout := fib w.stream.retryTimeout }
      writeRecords w.stream.maxRetries 0 w := by
  have : w.stream.queue.length ≠ 0 := by simpa using h
  simp [_flush, this, retryFn]

theorem flush_first_success [JsValue α] (w : World α ε) (response : Response)
    (hq : w.stream.queue ≠ [])
    (h : w.stream.client w.fx.calls.length = .ok response)
    (h0 : response.FailedPutCount = 0) :
    (_flush w).1.stream = { w.stream with queue := [] }
    ∧ (_flush w).1.fx.calls = w.fx.calls ++ [w.stream.request]
    ∧ (_flush w).1.fx.waits = w.fx.waits
    ∧ (_flush w).2 = .ok () := by
  have hw := writeRecords_success w response h h0
  rw [flush_nonempty w hq, retryLoop_ok _ _ _ _ _ hw.2.2.2]
  exact hw

/-! ## Writing below and at the high-water mark -/

theorem write_below [JsValue α] (w : World α ε) (record : α)
    (h : w.stream.queue.length + 1 < w.stream.highWaterMark) :
    _write w record =
      ({ stream := { w.stream with queue := w.stream.queue ++ [record] }
         fx := { w.fx with
                 logs := logIf w.stream.logger
                   ⟨.debug, "Adding to Firehose queue", .record record⟩ w.fx.logs } },
       .ok ()) := by
  unfold _write
  simp only [List.length_append, List.length_singleton, ge_iff_le]
  rw [if_neg (by omega)]

theorem write_reach [JsValue α] (w : World α ε) (record : α)
    (h : w.stream.highWaterMark ≤ w.stream.queue.length + 1) :
    _write w record =
      _flush { stream := { w.stream with queue := w.stream.queue ++ [record] }
               fx := { w.fx with
                       logs := logIf w.stream.logger
                         ⟨.debug, "Adding to Firehose queue", .record record⟩ w.fx.logs } } := by
  unfold _write
  simp only [List.length_append, List.length_singleton, ge_iff_le]
  rw [if_pos h]

theorem writeAll_below [JsValue α] (records : List α) :
    ∀ w : World α ε, w.stream.queue.length + records.length < w.stream.highWaterMark →
      (writeAll w records).2 = .ok ()
      ∧ (writeAll w records).1.stream = { w.stream with queue := w.stream.queue ++ records }
      ∧ (writeAll w records).1.fx.calls = w.fx.calls
      ∧ (writeAll w records).1.fx.waits = w.fx.waits := by
  induction records with
  | nil => intro w _; simp [writeAll]
  | cons record rest ih =>
    intro w h
    simp only [List.length_cons] at h
    unfold writeAll
    rw [write_below w record (by omega)]
    simp only
    have := ih { stream := { w.stream with queue := w.stream.queue ++ [record] }
                 fx := { w.fx with
                         logs := logIf w.stream.logger
                           ⟨.debug, "Adding to Firehose queue", .record record⟩ w.fx.logs } }
      (by simp only [List.length_append, List.length_singleton]; omega)
    simpa using this

theorem retryLoop_first_call [JsValue α] (options : RetryOptions) (left : Nat) :
    ∀ (attempt : Nat) (w : World α ε),
      ∃ rest, (retryLoop options writeRecords left attempt w).1.fx.calls
        = w.fx.calls ++ w.stream.request :: rest := by
  induction left with
  | zero =>
    intro attempt w
    exact ⟨[], by rw [retryLoop, writeRecords_calls]⟩
  | succ left ih =>
    intro attempt w
    cases h : (writeRecords w).2 with
    | ok u =>
      refine ⟨[], ?_⟩
      rw [retryLoop_ok _ _ _ _ _ h, writeRecords_calls]
    | error e =>
      obtain ⟨rest, hrest⟩ := ih (attempt + 1) ((writeRecords w).1.wait (options.timeout attempt))
      refine ⟨((writeRecords w).1.wait (options.timeout attempt)).stream.request :: rest, ?_⟩
      rw [retryLoop_error _ _ _ _ _ e h, hrest, wait_calls, writeRecords_calls]
      simp

theorem flush_first_call [JsValue α] (w : World α ε) (hq : w.stream.queue ≠ []) :
    ∃ rest, (_flush w).1.fx.calls = w.fx.calls ++ w.stream.request :: rest := by
  rw [flush_nonempty w hq]
  exact retryLoop_first_call _ _ _ _

/-- C2: N records, 0 < N < highWaterMark, written to a fresh writer (empty
queue, no effects yet) and followed by close, against a client that reports
full success: every write and the close complete successfully, and exactly one
batch call is made, whose request holds the `transformRecord` images of the N
records in submission order under the writer's `streamName`. -/
theorem C2_one_batch_on_close [JsValue α] (s : FirehoseWritable α ε) (records : List α)
    (hfresh : s.queue = [])
    (hpos : 0 < records.length) (hlt : records.length < s.highWaterMark)
    (hsvc : ∀ n, ∃ response, s.client n = .ok response ∧ response.FailedPutCount = 0) :
    (writeAll (World.fresh s) records).2 = .ok ()
    ∧ (close (writeAll (World.fresh s) records).1).2 = .ok ()
    ∧ (close (writeAll (World.fresh s) records).1).1.fx.calls
        = [{ Records := records.map s.transformRecord
             DeliveryStreamName := s.streamName }]
    ∧ (close (writeAll (World.fresh s) records).1).1.stream.queue = [] := by
  obtain ⟨hr, hs, hc, _⟩ := writeAll_below records (World.fresh s)
    (by simp [World.fresh, hfresh]; exact hlt)
  have hq : (writeAll (World.fresh s) records).1.stream.queue = records := by
    rw [hs]; simp [World.fresh, hfresh]
  have hne : (writeAll (World.fresh s) records).1.stream.queue ≠ [] := by
    rw [hq]; exact List.ne_nil_of_length_pos hpos
  obtain ⟨response, hresp, h0⟩ := hsvc (writeAll (World.fresh s) records).1.fx.calls.length
  have hcl : (writeAll (World.fresh s) records).1.stream.client = s.client := by
    rw [hs]; rfl
  obtain ⟨fs, fc, _, fr⟩ := flush_first_success (writeAll (World.fresh s) records).1 response
    hne (by rw [hcl]; exact hresp) h0
  refine ⟨hr, fr, ?_, ?_⟩
  · show (_flush (writeAll (World.fresh s) records).1).1.fx.calls = _
    rw [fc, hc, hs]
    simp [World.fresh, FirehoseWritable.request, FirehoseWritable.transformRecord, hfresh]
  · show (_flush (writeAll (World.fresh s) records).1).1.stream.queue = _
    rw [fs]

/-- C2 at four records written to a writer with high-water mark 6. -/
theorem C2_one_batch_on_close_witness :
    (close (writeAll (World.fresh (sampleWriter succeedingClient 6 []))
        [.num 0, .num 1, .num 2, .num 3]).1).1.fx.calls
      = [{ Records := [⟨"0"⟩, ⟨"1"⟩, ⟨"2"⟩, ⟨"3"⟩], DeliveryStreamName := "streamName" }] :=
  (C2_one_batch_on_close (sampleWriter succeedingClient 6 [])
      [.num 0, .num 1, .num 2, .num 3] rfl (by decide) (by decide)
      (fun _ => ⟨_, rfl, rfl⟩)).2.2.1.trans rfl

/-- C3: on a fresh writer with high-water mark h >= 1, after each of the first
h-1 writes the record has been appended, no batch call and no delay has been
issued and the write has completed successfully; the h-th write runs a flush on
the queue of all h records before it completes, and the first batch call of
that flush carries exactly those h records.  When that first call reports full
success it is the only call. -/
theorem C3_buffer_until_high_water_mark [JsValue α] (s : FirehoseWritable α ε)
    (records : List α) (last : α)
    (hfresh : s.queue = [])
    (hlen : records.length + 1 = s.highWaterMark) :
    (∀ k, k ≤ records.length →
        (writeAll (World.fresh s) (records.take k)).2 = .ok ()
        ∧ (writeAll (World.fresh s) (records.take k)).1.stream.queue = records.take k
        ∧ (writeAll (World.fresh s) (records.take k)).1.fx.calls = []
        ∧ (writeAll (World.fresh s) (records.take k)).1.fx.waits = [])
    ∧ (∃ fx, _write (writeAll (World.fresh s) records).1 last
        = _flush { stream := { s with queue := records ++ [last] }, fx := fx }
        ∧ fx.calls = [])
    ∧ (∃ rest, (_write (writeAll (World.fresh s) records).1 last).1.fx.calls
        = { Records := (records ++ [last]).map s.transformRecord
            DeliveryStreamName := s.streamName } :: rest)
    ∧ ((records ++ [last]).map s.transformRecord).length = s.highWaterMark
    ∧ (∀ response, s.client 0 = .ok response → response.FailedPutCount = 0 →
        (_write (writeAll (World.fresh s) records).1 last).1.fx.calls.length = 1
        ∧ (_write (writeAll (World.fresh s) records).1 last).2 = .ok ()) := by
  have hbelow : ∀ k, k ≤ records.length →
      (writeAll (World.fresh s) (records.take k)).2 = .ok ()
      ∧ (writeAll (World.fresh s) (records.take k)).1.stream
          = { s with queue := records.take k }
      ∧ (writeAll (World.fresh s) (records.take k)).1.fx.calls = []
      ∧ (writeAll (World.fresh s) (records.take k)).1.fx.waits = [] := by
    intro k hk
    have h := writeAll_below (records.take k) (World.fresh s)
      (by simp [World.fresh, hfresh]; omega)
    simpa [World.fresh, hfresh] using h
  have hall := hbelow records.length (le_refl _)
  rw [List.take_length] at hall
  obtain ⟨_, hs, hc, _⟩ := hall
  have hreach := write_reach (writeAll (World.fresh s) records).1 last
    (by rw [hs]; simp; omega)
  rw [hs] at hreach
  have hne : records ++ [last] ≠ [] := by simp
  refine ⟨?_, ⟨_, hreach, hc⟩, ?_, by simp; omega, ?_⟩
  · intro k hk
    obtain ⟨h1, h2, h3, h4⟩ := hbelow k hk
    exact ⟨h1, by rw [h2], h3, h4⟩
  · rw [hreach]
    obtain ⟨rest, hrest⟩ := flush_first_call
      { stream := { s with queue := records ++ [last] }
        fx := { (writeAll (World.fresh s) records).1.fx with
                logs := logIf s.logger ⟨.debug, "Adding to Firehose queue", .record last⟩
                  (writeAll (World.fresh s) records).1.fx.logs } } hne
    refine ⟨rest, ?_⟩
    rw [hrest, hc]
    simp [FirehoseWritable.request, FirehoseWritable.transformRecord]
  · intro response hresp h0
    rw [hreach]
    obtain ⟨_, fc, _, fr⟩ := flush_first_success
      { stream := { s with queue := records ++ [last] }
        fx := { (writeAll (World.fresh s) records).1.fx with
                logs := logIf s.logger ⟨.debug, "Adding to Firehose queue", .record last⟩
                  (writeAll (World.fresh s) records).1.fx.logs } } response hne
      (by simp only [hc]; exact hresp) h0
    exact ⟨by rw [fc, hc]; rfl, fr⟩

/-- C3 at high-water mark 6: no batch call after five writes, exactly one once
the sixth write has completed. -/
theorem C3_buffer_until_high_water_mark_witness :
    (writeAll (World.fresh (sampleWriter succeedingClient 6 []))
        [.num 0, .num 0, .num 0, .num 0, .num 0]).1.fx.calls = []
    ∧ (_write (writeAll (World.fresh (sampleWriter succeedingClient 6 []))
        [.num 0, .num 0, .num 0, .num 0, .num 0]).1 (.num 0)).1.fx.calls.length = 1 :=
  ⟨((C3_buffer_until_high_water_mark (sampleWriter succeedingClient 6 [])
      [.num 0, .num 0, .num 0, .num 0, .num 0] (.num 0) rfl rfl).1 5 (by decide)).2.2.1,
   ((C3_buffer_until_high_water_mark (sampleWriter succeedingClient 6 [])
      [.num 0, .num 0, .num 0, .num 0, .num 0] (.num 0) rfl rfl).2.2.2.2 _ rfl rfl).1⟩

/-! ## Construction -/

theorem orNat_le (v : Option Nat) (d bound : Nat) (hd : d ≤ bound)
    (hv : ∀ n, v = some n → n ≤ bound) : orNat v d ≤ bound := by
  unfold orNat
  split
  · exact hv _ rfl
  · exact hd

theorem orNat_gt (n d bound : Nat) (h : bound < n) : bound < orNat (some n) d := by
  cases n with
  | zero => omega
  | succ n => simpa [orNat] using h

theorem truthyStr_iff (v : Option String) :
    truthyStr v = true ↔ ∃ name, v = some name ∧ name ≠ "" := by
  cases v with
  | none => simp [truthyStr]
  | some s => simp [truthyStr]

/-- C4: construction fails with 'client is required' when the client is absent
(whatever the other arguments), with 'streamName is required' when a client is
given and streamName is absent or empty, and with 'Max highWaterMark is 500'
when client and streamName are given and the configured highWaterMark exceeds
500; in every other case it yields a writer with an empty queue (holding the
given client and streamName); and in no case does it add a batch call, or any
other effect. -/
theorem C4_construction (client : Option (Client ε)) (streamName : Option String)
    (options : Option Options) (fx : Effects α) :
    (client = none →
      (FirehoseWritable.new client streamName options fx).1 = .error "client is required")
    ∧ (client ≠ none → (streamName = none ∨ streamName = some "") →
      (FirehoseWritable.new client streamName options fx).1 = .error "streamName is required")
    ∧ (∀ c name n, client = some c → streamName = some name → name ≠ "" →
        (options.getD {}).highWaterMark = some n → 500 < n →
      (FirehoseWritable.new client streamName options fx).1
        = .error "Max highWaterMark is 500")
    ∧ (∀ c name, client = some c → streamName = some name → name ≠ "" →
        (∀ n, (options.getD {}).highWaterMark = some n → n ≤ 500) →
      ∃ s, (FirehoseWritable.new client streamName options fx).1 = .ok s
        ∧ s.queue = [] ∧ s.client = c ∧ s.streamName = name)
    ∧ (FirehoseWritable.new client streamName options fx).2 = fx
    ∧ (FirehoseWritable.new client streamName options fx).2.calls = fx.calls := by
  refine ⟨?_, ?_, ?_, ?_, ?_⟩
  · intro h
    subst h
    rfl
  · intro hc hn
    cases client with
    | none => exact absurd rfl hc
    | some c =>
      have : truthyStr streamName = false := by
        rcases hn with h | h <;> simp [h, truthyStr]
      simp [FirehoseWritable.new, this]
  · intro c name n hc hn hne hh hgt
    subst hc hn
    have ht : truthyStr (some name) = true := (truthyStr_iff _).2 ⟨name, rfl, hne⟩
    have hb : ¬ orNat (options.getD {}).highWaterMark 16 ≤ 500 := by
      rw [hh]
      exact not_le.mpr (orNat_gt n 16 500 hgt)
    simp only [FirehoseWritable.new, ht, if_true, if_neg hb]
  · intro c name hc hn hne hh
    subst hc hn
    have ht : truthyStr (some name) = true := (truthyStr_iff _).2 ⟨name, rfl, hne⟩
    have hb : orNat (options.getD {}).highWaterMark 16 ≤ 500 :=
      orNat_le _ 16 500 (by decide) hh
    simp only [FirehoseWritable.new, ht, if_true, if_pos hb]
    exact ⟨_, rfl, rfl, rfl, rfl⟩
  · have h2 : (FirehoseWritable.new client streamName options fx).2 = fx := by
      unfold FirehoseWritable.new
      cases client with
      | none => rfl
      | some c =>
        simp only
        split
        · split <;> rfl
        · rfl
    exact ⟨h2, by rw [h2]⟩

/-- C4 at the three failing constructions of the test suite and at a
successful one. -/
theorem C4_construction_witness :
    (FirehoseWritable.new (none : Option (Client String)) none none
        ({} : Effects Sample)).1 = .error "client is required"
    ∧ (FirehoseWritable.new (some succeedingClient) none none
        ({} : Effects Sample)).1 = .error "streamName is required"
    ∧ (FirehoseWritable.new (some succeedingClient) (some "test")
        (some { highWaterMark := some 501 }) ({} : Effects Sample)).1
        = .error "Max highWaterMark is 500"
    ∧ (FirehoseWritable.new (some succeedingClient) (some "streamName")
        (some { highWaterMark := some 6 }) ({} : Effects Sample)).1.toOption.isSome = true :=
  ⟨(C4_construction none none none {}).1 rfl,
   (C4_construction (some succeedingClient) none none {}).2.1 (by simp) (Or.inl rfl),
   (C4_construction (some succeedingClient) (some "test")
      (some { highWaterMark := some 501 }) {}).2.2.1 _ _ 501 rfl rfl (by decide) rfl
      (by decide),
   match (C4_construction (some succeedingClient) (some "streamName")
      (some { highWaterMark := some 6 }) ({} : Effects Sample)).2.2.2.1 _ _ rfl rfl (by decide)
      (by intro n h; cases h; decide) with
   | ⟨_, h, _⟩ => by rw [h]; rfl⟩

/-! ## Transport errors -/

theorem retryLoop_all_err [JsValue α] (options : RetryOptions) (e : ε) (left : Nat) :
    ∀ (attempt : Nat) (w : World α ε),
      (∀ n, w.fx.calls.length ≤ n → w.stream.client n = .err e) →
      (retryLoop options writeRecords left attempt w).2 = .error (.client e)
      ∧ (retryLoop options writeRecords left attempt w).1.stream = w.stream
      ∧ (retryLoop options writeRecords left attempt w).1.fx.calls
          = w.fx.calls ++ List.replicate (left + 1) w.stream.request := by
  induction left with
  | zero =>
    intro attempt w h
    have hw := writeRecords_err w e (h _ (le_refl _))
    simp only [retryLoop, hw]
    simp
  | succ left ih =>
    intro attempt w h
    have hw := writeRecords_err w e (h _ (le_refl _))
    have h2 : (writeRecords w).2 = .error (.client e) := by rw [hw]
    rw [retryLoop_error _ _ _ _ _ _ h2]
    have hs : ((writeRecords w).1.wait (options.timeout attempt)).stream = w.stream := by
      rw [wait_stream, hw]
    have hc : ((writeRecords w).1.wait (options.timeout attempt)).fx.calls
        = w.fx.calls ++ [w.stream.request] := by
      rw [wait_calls, writeRecords_calls]
    obtain ⟨i1, i2, i3⟩ := ih (attempt + 1) ((writeRecords w).1.wait (options.timeout attempt))
      (by
        intro n hn
        rw [hs]
        apply h
        rw [hc] at hn
        simp at hn
        omega)
    refine ⟨i1, by rw [i2, hs], ?_⟩
    rw [i3, hc, hs, List.replicate_succ (n := left + 1)]
    simp

/-- C5: when the batch call itself yields an error e, the attempt reports
exactly e and leaves the writer, its queue included, as it was, so the
retry's batch call carries the same request as the failed one; and when every
attempt of a flush on a non-empty queue errors with e, the flush reports e
unchanged, the queue is untouched and every one of its batch calls carried the
same request. -/
theorem C5_transport_error [JsValue α] (w : World α ε) (e : ε)
    (hcall : w.stream.client w.fx.calls.length = .err e) :
    (writeRecords w).2 = .error (.client e)
    ∧ (writeRecords w).1.stream = w.stream
    ∧ (writeRecords w).1.stream.queue = w.stream.queue
    ∧ (∀ delay, (writeRecords ((writeRecords w).1.wait delay)).1.fx.calls
        = w.fx.calls ++ [w.stream.request, w.stream.request])
    ∧ (w.stream.queue ≠ [] → (∀ n, w.fx.calls.length ≤ n → w.stream.client n = .err e) →
        (_flush w).2 = .error (.client e)
        ∧ (_flush w).1.stream.queue = w.stream.queue
        ∧ (_flush w).1.fx.calls
            = w.fx.calls ++ List.replicate (w.stream.maxRetries + 1) w.stream.request) := by
  have hw := writeRecords_err w e hcall
  have hs : (writeRecords w).1.stream = w.stream := by rw [hw]
  refine ⟨by rw [hw], hs, by rw [hs], ?_, ?_⟩
  · intro delay
    rw [writeRecords_calls, wait_calls, wait_stream, writeRecords_calls, hs]
    simp
  · intro hq hall
    rw [flush_nonempty w hq]
    obtain ⟨h1, h2, h3⟩ := retryLoop_all_err
      { retries := w.stream.maxRetries, timeout := fib w.stream.retryTimeout } e
      w.stream.maxRetries 0 w hall
    exact ⟨h1, by rw [h2], h3⟩

/-- C5 at one queued record and a client that always fails with 'Fail': the
flush reports 'Fail' and the record stays queued. -/
theorem C5_transport_error_witness :
    (_flush (World.fresh (sampleWriter brokenClient 6 [.flag true]))).2
        = .error (.client "Fail")
    ∧ (_flush (World.fresh (sampleWriter brokenClient 6 [.flag true]))).1.stream.queue
        = [.flag true] :=
  ⟨((C5_transport_error (World.fresh (sampleWriter brokenClient 6 [.flag true])) "Fail"
      rfl).2.2.2.2 (by decide) (fun _ _ => rfl)).1,
   ((C5_transport_error (World.fresh (sampleWriter brokenClient 6 [.flag true])) "Fail"
      rfl).2.2.2.2 (by decide) (fun _ _ => rfl)).2.1⟩

/-! ## Full success -/

theorem writeRecords_ok_queue [JsValue α] (w : World α ε) (h : (writeRecords w).2 = .ok ()) :
    (writeRecords w).1.stream.queue = [] := by
  cases hc : w.stream.client w.fx.calls.length with
  | err e =>
    rw [writeRecords_err w e hc] at h
    cases h
  | ok response =>
    by_cases h0 : response.FailedPutCount = 0
    · rw [(writeRecords_success w response hc h0).1]
    · obtain ⟨_, _, _, _, hr⟩ := writeRecords_someFailed w response hc h0
      rw [hr] at h
      cases h

theorem retryLoop_ok_queue [JsValue α] (options : RetryOptions) (left : Nat) :
    ∀ (attempt : Nat) (w : World α ε),
      (retryLoop options writeRecords left attempt w).2 = .ok () →
      (retryLoop options writeRecords left attempt w).1.stream.queue = [] := by
  induction left with
  | zero =>
    intro attempt w h
    exact writeRecords_ok_queue w h
  | succ left ih =>
    intro attempt w h
    cases hw : (writeRecords w).2 with
    | ok u =>
      rw [retryLoop_ok _ _ _ _ _ hw]
      exact writeRecords_ok_queue w hw
    | error e =>
      rw [retryLoop_error _ _ _ _ _ e hw] at h ⊢
      exact ih _ _ h

theorem flush_ok_queue [JsValue α] (w : World α ε) (h : (_flush w).2 = .ok ()) :
    (_flush w).1.stream.queue = [] := by
  by_cases hq : w.stream.queue = []
  · rw [flush_empty w hq]
    exact hq
  · rw [flush_nonempty w hq] at h ⊢
    exact retryLoop_ok_queue _ _ _ _ h

theorem writeAll_snoc [JsValue α] (records : List α) (last : α) :
    ∀ w : World α ε, (writeAll w records).2 = .ok () →
      writeAll w (records ++ [last]) = _write (writeAll w records).1 last := by
  induction records with
  | nil =>
    intro w _
    simp only [List.nil_append, writeAll]
    cases hw : _write w last with
    | mk w1 c =>
      cases c with
      | ok u => rfl
      | error e => rfl
  | cons record rest ih =>
    intro w h
    simp only [List.cons_append, writeAll] at h ⊢
    cases hw : _write w record with
    | mk w1 c =>
      rw [hw] at h
      cases c with
      | ok u => exact ih w1 h
      | error e => cases h

/-- C6: a flush on an empty queue makes no batch call (it leaves the world as
it is) and reports success; an attempt whose response has FailedPutCount = 0
leaves the queue empty, and so does every flush that reports success, so that
a second flush is such a no-op; and highWaterMark writes to a fresh writer
followed by close, against a client that reports full success, produce exactly
one batch call. -/
theorem C6_success_then_no_op [JsValue α] (w : World α ε) :
    (w.stream.queue = [] → _flush w = (w, .ok ()))
    ∧ (∀ response, w.stream.client w.fx.calls.length = .ok response →
        response.FailedPutCount = 0 →
        (writeRecords w).1.stream.queue = []
        ∧ _flush (writeRecords w).1 = ((writeRecords w).1, .ok ()))
    ∧ ((_flush w).2 = .ok () →
        (_flush w).1.stream.queue = [] ∧ _flush (_flush w).1 = ((_flush w).1, .ok ()))
    ∧ (∀ records last, w.stream.queue = [] → w.fx.calls = [] →
        records.length + 1 = w.stream.highWaterMark →
        (∀ n, ∃ response, w.stream.client n = .ok response ∧ response.FailedPutCount = 0) →
        (writeAll w (records ++ [last])).2 = .ok ()
        ∧ (close (writeAll w (records ++ [last])).1).2 = .ok ()
        ∧ (close (writeAll w (records ++ [last])).1).1.fx.calls
            = [{ Records := (records ++ [last]).map w.stream.transformRecord
                 DeliveryStreamName := w.stream.streamName }]) := by
  refine ⟨flush_empty w, ?_, ?_, ?_⟩
  · intro response hresp h0
    have hq : (writeRecords w).1.stream.queue = [] := by
      rw [(writeRecords_success w response hresp h0).1]
    exact ⟨hq, flush_empty _ hq⟩
  · intro h
    exact ⟨flush_ok_queue w h, flush_empty _ (flush_ok_queue w h)⟩
  · intro records last hq hc hlen hsvc
    obtain ⟨br, bs, bc, _⟩ := writeAll_below records w (by rw [hq]; simp; omega)
    have hreach := write_reach (writeAll w records).1 last (by rw [bs]; simp; omega)
    rw [← writeAll_snoc records last w br] at hreach
    obtain ⟨response, hresp, h0⟩ := hsvc (w.fx.calls.length)
    obtain ⟨fs, fc, _, fr⟩ := flush_first_success
      { stream := { (writeAll w records).1.stream with
                    queue := (writeAll w records).1.stream.queue ++ [last] }
        fx := { (writeAll w records).1.fx with
                logs := logIf (writeAll w records).1.stream.logger
                  ⟨.debug, "Adding to Firehose queue", .record last⟩
                  (writeAll w records).1.fx.logs } } response (by simp)
      (by simp only [bc, bs]; exact hresp) h0
    rw [← hreach] at fs fc fr
    have hempty : (writeAll w (records ++ [last])).1.stream.queue = [] := by rw [fs]
    have hclose : close (writeAll w (records ++ [last])).1
        = ((writeAll w (records ++ [last])).1, .ok ()) := flush_empty _ hempty
    refine ⟨fr, by rw [hclose], ?_⟩
    rw [hclose, fc, bc, bs, hc, hq]
    simp [FirehoseWritable.request, FirehoseWritable.transformRecord]

/-- C6 at six writes to a writer with high-water mark 6, followed by close:
one batch call. -/
theorem C6_success_then_no_op_witness :
    (close (writeAll (World.fresh (sampleWriter succeedingClient 6 []))
        [.num 0, .num 1, .num 2, .num 3, .num 4, .num 5]).1).1.fx.calls.length = 1 :=
  (congrArg List.length
    ((C6_success_then_no_op (World.fresh (sampleWriter succeedingClient 6 []))).2.2.2
      [.num 0, .num 1, .num 2, .num 3, .num 4] (.num 5) rfl rfl rfl
      (fun _ => ⟨_, rfl, rfl⟩)).2.2).trans rfl

/-! ## No silent discard -/

theorem failedAt_mem (queue : List α) :
    ∀ (responses : List Entry) (i : Nat) (record : α) (entry : Entry),
      queue[i]? = some record → responses[i]? = some entry → entry.failed = true →
      record ∈ failedAt queue responses := by
  induction queue with
  | nil => intro responses i record entry h; simp at h
  | cons a queue ih =>
    intro responses i record entry hq hr hf
    cases responses with
    | nil => simp at hr
    | cons first rest =>
      rw [failedAt_cons]
      cases i with
      | zero =>
        simp only [List.getElem?_cons_zero, Option.some.injEq] at hq hr
        subst hq hr
        simp [hf]
      | succ i =>
        simp only [List.getElem?_cons_succ] at hq hr
        have := ih rest i record entry hq hr hf
        split
        · exact List.mem_cons_of_mem _ this
        · exact this

theorem failedAt_none (queue : List α) :
    ∀ responses : List Entry, (∀ entry ∈ responses, entry.failed = false) →
      failedAt queue responses = [] := by
  induction queue with
  | nil => intro responses _; simp [failedAt]
  | cons a queue ih =>
    intro responses h
    cases responses with
    | nil => simp [failedAt]
    | cons first rest =>
      rw [failedAt_cons, h first (List.mem_cons_self _ _)]
      simpa using ih rest (fun entry he => h entry (List.mem_cons_of_mem _ he))

/-- C7, as stated, fails: the response below has one outcome for the one
queued record and that outcome carries an error code, yet it reports
FailedPutCount = 0, and the attempt empties the queue: the record is dropped
although its outcome is a failure. -/
theorem C7_no_silent_discard_counterexample :
    (sampleWriter inconsistentClient 6 [.num 7]).client 0
        = .ok { FailedPutCount := 0, RequestResponses := [Entry.rejected] }
    ∧ [Entry.rejected].length = (sampleWriter inconsistentClient 6 [.num 7]).queue.length
    ∧ (sampleWriter inconsistentClient 6 [.num 7]).queue[0]? = some (Sample.num 7)
    ∧ [Entry.rejected][0]? = some Entry.rejected
    ∧ Entry.rejected.failed = true
    ∧ (writeRecords (World.fresh (sampleWriter inconsistentClient 6 [.num 7]))).1.stream.queue
        = [] :=
  ⟨rfl, rfl, rfl, rfl, rfl, rfl⟩

/-- C7, amended: for every attempt whose response carries one outcome per
queued record and reports FailedPutCount = 0 only when no outcome carries an
error code, the queue after the attempt is exactly the records whose outcome
carries an error code, so each of them is still queued and a record leaves the
queue only when its outcome carries none; and an attempt whose batch call
errors leaves the queue as it was. -/
theorem C7_no_silent_discard [JsValue α] (w : World α ε) :
    (∀ response, w.stream.client w.fx.calls.length = .ok response →
      response.RequestResponses.length = w.stream.queue.length →
      (response.FailedPutCount = 0 →
        ∀ entry ∈ response.RequestResponses, entry.failed = false) →
      (writeRecords w).1.stream.queue = failedAt w.stream.queue response.RequestResponses
      ∧ ∀ (i : Nat) (record : α) (entry : Entry), w.stream.queue[i]? = some record →
          response.RequestResponses[i]? = some entry → entry.failed = true →
          record ∈ (writeRecords w).1.stream.queue)
    ∧ (∀ e, w.stream.client w.fx.calls.length = .err e →
      (writeRecords w).1.stream.queue = w.stream.queue) := by
  constructor
  · intro response hresp hlen hcons
    have hq : (writeRecords w).1.stream.queue
        = failedAt w.stream.queue response.RequestResponses := by
      by_cases h0 : response.FailedPutCount = 0
      · rw [(writeRecords_success w response hresp h0).1, failedAt_none _ _ (hcons h0)]
      · rw [(writeRecords_aligned w response hresp h0 (le_of_eq hlen)).1]
    refine ⟨hq, ?_⟩
    intro i record entry hi hr hf
    rw [hq]
    exact failedAt_mem _ _ i record entry hi hr hf
  · intro e he
    rw [writeRecords_err w e he]

/-- C7 (amended) at four records with positions 1 and 3 rejected: both
rejected records are still queued. -/
theorem C7_no_silent_discard_witness :
    Sample.num 1 ∈ (writeRecords (World.fresh (sampleWriter rejectingClient 6
        [.num 0, .num 1, .num 2, .num 3]))).1.stream.queue
    ∧ Sample.num 3 ∈ (writeRecords (World.fresh (sampleWriter rejectingClient 6
        [.num 0, .num 1, .num 2, .num 3]))).1.stream.queue :=
  ⟨((C7_no_silent_discard (World.fresh (sampleWriter rejectingClient 6
        [.num 0, .num 1, .num 2, .num 3]))).1 _ rfl rfl (by decide)).2
      1 (.num 1) Entry.rejected rfl rfl rfl,
   ((C7_no_silent_discard (World.fresh (sampleWriter rejectingClient 6
        [.num 0, .num 1, .num 2, .num 3]))).1 _ rfl rfl (by decide)).2
      3 (.num 3) Entry.rejected rfl rfl rfl⟩

/-! ## Retrying -/

theorem writeRecords_frame [JsValue α] (w : World α ε) :
    (writeRecords w).1.stream = { w.stream with queue := (writeRecords w).1.stream.queue }
    ∧ (writeRecords w).1.fx.waits = w.fx.waits := by
  cases hc : w.stream.client w.fx.calls.length with
  | err e =>
    rw [writeRecords_err w e hc]
    exact ⟨rfl, rfl⟩
  | ok response =>
    by_cases h0 : response.FailedPutCount = 0
    · obtain ⟨hs, _, hw, _⟩ := writeRecords_success w response hc h0
      rw [hs]
      exact ⟨rfl, hw⟩
    · obtain ⟨_, hs, _, hw, _⟩ := writeRecords_someFailed w response hc h0
      rw [hs]
      exact ⟨rfl, hw⟩

theorem writeRecords_client [JsValue α] (w : World α ε) :
    (writeRecords w).1.stream.client = w.stream.client := by
  rw [(writeRecords_frame w).1]

theorem writeRecords_failed [JsValue α] (w : World α ε)
    (h : (w.stream.client w.fx.calls.length).failed = true) :
    ∃ e, (writeRecords w).2 = .error e := by
  cases hc : w.stream.client w.fx.calls.length with
  | err e =>
    rw [writeRecords_err w e hc]
    exact ⟨_, rfl⟩
  | ok response =>
    rw [hc] at h
    have h0 : response.FailedPutCount ≠ 0 := by simpa [Outcome.failed] using h
    obtain ⟨_, _, _, _, hr⟩ := writeRecords_someFailed w response hc h0
    exact ⟨_, hr⟩

theorem retryLoop_stops [JsValue α] (options : RetryOptions) (response : Response)
    (h0 : response.FailedPutCount = 0) (k : Nat) :
    ∀ (left attempt : Nat) (w : World α ε), k ≤ left →
      (∀ i, i < k → (w.stream.client (w.fx.calls.length + i)).failed = true) →
      w.stream.client (w.fx.calls.length + k) = .ok response →
      (retryLoop options writeRecords left attempt w).2 = .ok ()
      ∧ (retryLoop options writeRecords left attempt w).1.fx.calls.length
          = w.fx.calls.length + k + 1
      ∧ (retryLoop options writeRecords left attempt w).1.fx.waits.length
          = w.fx.waits.length + k
      ∧ (retryLoop options writeRecords left attempt w).1.stream.queue = [] := by
  induction k with
  | zero =>
    intro left attempt w _ _ hok
    obtain ⟨hs, hc, hw, hr⟩ := writeRecords_success w response hok h0
    rw [retryLoop_ok _ _ _ _ _ hr]
    exact ⟨hr, by rw [hc]; simp, by rw [hw]; rfl, by rw [hs]⟩
  | succ k ih =>
    intro left attempt w hle hfail hok
    obtain ⟨left, rfl⟩ : ∃ l, left = l + 1 := ⟨left - 1, by omega⟩
    obtain ⟨e, he⟩ := writeRecords_failed w (hfail 0 (by omega))
    rw [retryLoop_error _ _ _ _ _ e he]
    have hlen : ((writeRecords w).1.wait (options.timeout attempt)).fx.calls.length
        = w.fx.calls.length + 1 := by
      rw [wait_calls, writeRecords_calls]; simp
    have hcl : ((writeRecords w).1.wait (options.timeout attempt)).stream.client
        = w.stream.client := by
      rw [wait_stream, writeRecords_client]
    have hwt : ((writeRecords w).1.wait (options.timeout attempt)).fx.waits.length
        = w.fx.waits.length + 1 := by
      simp [World.wait, (writeRecords_frame w).2]
    obtain ⟨i1, i2, i3, i4⟩ := ih left (attempt + 1)
      ((writeRecords w).1.wait (options.timeout attempt)) (by omega)
      (by
        intro i hi
        rw [hcl, hlen]
        have := hfail (i + 1) (by omega)
        rwa [show w.fx.calls.length + 1 + i = w.fx.calls.length + (i + 1) by omega])
      (by
        rw [hcl, hlen]
        rwa [show w.fx.calls.length + 1 + k = w.fx.calls.length + (k + 1) by omega])
    exact ⟨i1, by rw [i2, hlen]; omega, by rw [i3, hwt]; omega, i4⟩

/-- C8: a flush on a non-empty queue whose first k attempts fail (by a
response with FailedPutCount != 0 or by an error of the call) and whose attempt
k+1 reports full success, with k < maxRetries, makes exactly k+1 batch calls
(and waits k times), reports success and leaves the queue empty. -/
theorem C8_retry_stops_at_first_success [JsValue α] (w : World α ε) (k : Nat)
    (response : Response)
    (hq : w.stream.queue ≠ [])
    (hk : k < w.stream.maxRetries)
    (hfail : ∀ i, i < k → (w.stream.client (w.fx.calls.length + i)).failed = true)
    (hok : w.stream.client (w.fx.calls.length + k) = .ok response)
    (h0 : response.FailedPutCount = 0) :
    (_flush w).1.fx.calls.length = w.fx.calls.length + (k + 1)
    ∧ (_flush w).1.fx.waits.length = w.fx.waits.length + k
    ∧ (_flush w).2 = .ok ()
    ∧ (_flush w).1.stream.queue = [] := by
  rw [flush_nonempty w hq]
  obtain ⟨h1, h2, h3, h4⟩ := retryLoop_stops
    { retries := w.stream.maxRetries, timeout := fib w.stream.retryTimeout } response h0 k
    w.stream.maxRetries 0 w (le_of_lt hk) hfail hok
  exact ⟨by rw [h2]; omega, h3, h1, h4⟩

/-- C8 with the default maxRetries = 3: two rejected attempts followed by a
success give exactly three batch calls. -/
theorem C8_retry_stops_at_first_success_witness :
    (_flush (World.fresh (sampleWriter recoveringClient 6
        [.num 0, .num 1, .num 2, .num 3]))).1.fx.calls.length = 3
    ∧ (_flush (World.fresh (sampleWriter recoveringClient 6
        [.num 0, .num 1, .num 2, .num 3]))).2 = .ok () :=
  ⟨(C8_retry_stops_at_first_success (World.fresh (sampleWriter recoveringClient 6
        [.num 0, .num 1, .num 2, .num 3])) 2 _ (by decide) (by decide)
      (by intro i hi; interval_cases i <;> rfl) rfl rfl).1,
   (C8_retry_stops_at_first_success (World.fresh (sampleWriter recoveringClient 6
        [.num 0, .num 1, .num 2, .num 3])) 2 _ (by decide) (by decide)
      (by intro i hi; interval_cases i <;> rfl) rfl rfl).2.2.1⟩

theorem retryLoop_exhausted [JsValue α] (options : RetryOptions) (left : Nat) :
    ∀ (attempt : Nat) (w : World α ε),
      (∀ n, w.fx.calls.length ≤ n → (w.stream.client n).failed = true) →
      retryLoop options writeRecords left attempt w
        = writeRecords (afterFailures options writeRecords left attempt w)
      ∧ (afterFailures options writeRecords left attempt w).fx.calls.length
          = w.fx.calls.length + left
      ∧ (afterFailures options writeRecords left attempt w).fx.waits.length
          = w.fx.waits.length + left
      ∧ (afterFailures options writeRecords left attempt w).stream.client = w.stream.client := by
  induction left with
  | zero =>
    intro attempt w _
    exact ⟨rfl, rfl, rfl, rfl⟩
  | succ left ih =>
    intro attempt w hfail
    obtain ⟨e, he⟩ := writeRecords_failed w (hfail _ (le_refl _))
    have hlen : ((writeRecords w).1.wait (options.timeout attempt)).fx.calls.length
        = w.fx.calls.length + 1 := by
      rw [wait_calls, writeRecords_calls]; simp
    have hcl : ((writeRecords w).1.wait (options.timeout attempt)).stream.client
        = w.stream.client := by
      rw [wait_stream, writeRecords_client]
    have hwt : ((writeRecords w).1.wait (options.timeout attempt)).fx.waits.length
        = w.fx.waits.length + 1 := by
      simp [World.wait, (writeRecords_frame w).2]
    obtain ⟨i1, i2, i3, i4⟩ := ih (attempt + 1)
      ((writeRecords w).1.wait (options.timeout attempt))
      (by
        intro n hn
        rw [hcl]
        exact hfail n (by omega))
    rw [retryLoop_error _ _ _ _ _ e he]
    refine ⟨i1, ?_, ?_, ?_⟩
    · show (afterFailures options writeRecords left (attempt + 1)
        ((writeRecords w).1.wait (options.timeout attempt))).fx.calls.length = _
      rw [i2, hlen]; omega
    · show (afterFailures options writeRecords left (attempt + 1)
        ((writeRecords w).1.wait (options.timeout attempt))).fx.waits.length = _
      rw [i3, hwt]; omega
    · show (afterFailures options writeRecords left (attempt + 1)
        ((writeRecords w).1.wait (options.timeout attempt))).stream.client = _
      rw [i4, hcl]

/-- C9: a flush on a non-empty queue against a client that answers every batch
call with a response whose FailedPutCount is not 0 makes exactly maxRetries + 1
batch calls, that is maxRetries retries (each after one wait) beyond the first
attempt; its completion and final state are those of the last attempt, which
starts after maxRetries failed attempts: it reports that attempt's error, and
when the last response has one entry per record then queued, the queue ends as
exactly the records that response reports as failed and the error counts
them. -/
theorem C9_retry_exhaustion [JsValue α] (w : World α ε)
    (hq : w.stream.queue ≠ [])
    (hsvc : ∀ n, w.fx.calls.length ≤ n →
      ∃ response, w.stream.client n = .ok response ∧ response.FailedPutCount ≠ 0) :
    (_flush w).1.fx.calls.length = w.fx.calls.length + (w.stream.maxRetries + 1)
    ∧ (_flush w).1.fx.waits.length = w.fx.waits.length + w.stream.maxRetries
    ∧ _flush w = writeRecords (afterFailures
        { retries := w.stream.maxRetries, timeout := fib w.stream.retryTimeout }
        writeRecords w.stream.maxRetries 0 w)
    ∧ (afterFailures { retries := w.stream.maxRetries, timeout := fib w.stream.retryTimeout }
        writeRecords w.stream.maxRetries 0 w).fx.calls.length
          = w.fx.calls.length + w.stream.maxRetries
    ∧ (∃ message, (_flush w).2 = .error (.error message))
    ∧ (∀ response,
        w.stream.client (w.fx.calls.length + w.stream.maxRetries) = .ok response →
        response.RequestResponses.length
          = (afterFailures
              { retries := w.stream.maxRetries, timeout := fib w.stream.retryTimeout }
              writeRecords w.stream.maxRetries 0 w).stream.queue.length →
        (_flush w).1.stream.queue
          = failedAt (afterFailures
              { retries := w.stream.maxRetries, timeout := fib w.stream.retryTimeout }
              writeRecords w.stream.maxRetries 0 w).stream.queue response.RequestResponses
        ∧ (_flush w).2 = .error (.error ("Failed to write "
            ++ toString (_flush w).1.stream.queue.length ++ " records"))) := by
  have hfailed : ∀ n, w.fx.calls.length ≤ n → (w.stream.client n).failed = true := by
    intro n hn
    obtain ⟨response, hr, h0⟩ := hsvc n hn
    rw [hr]
    simpa [Outcome.failed] using h0
  obtain ⟨e1, e2, e3, e4⟩ := retryLoop_exhausted
    { retries := w.stream.maxRetries, timeout := fib w.stream.retryTimeout }
    w.stream.maxRetries 0 w hfailed
  rw [flush_nonempty w hq, e1]
  obtain ⟨response, hr, h0⟩ := hsvc (w.fx.calls.length + w.stream.maxRetries) (by omega)
  have hlast : (afterFailures
      { retries := w.stream.maxRetries, timeout := fib w.stream.retryTimeout }
      writeRecords w.stream.maxRetries 0 w).stream.client
      (afterFailures
        { retries := w.stream.maxRetries, timeout := fib w.stream.retryTimeout }
        writeRecords w.stream.maxRetries 0 w).fx.calls.length = .ok response := by
    rw [e4, e2]; exact hr
  refine ⟨?_, ?_, rfl, e2, ?_, ?_⟩
  · rw [writeRecords_calls]; simp [e2]; omega
  · rw [(writeRecords_frame _).2, e3]
  · obtain ⟨_, _, _, _, hres⟩ := writeRecords_someFailed _ response hlast h0
    exact ⟨_, hres⟩
  · intro response2 hr2 hlen
    rw [hr] at hr2
    cases hr2
    obtain ⟨hs, _, _, hres⟩ := writeRecords_aligned _ response hlast h0 (le_of_eq hlen)
    refine ⟨by rw [hs], ?_⟩
    rw [hres, hs]

/-- C9 with maxRetries = 3 and a client that rejects the one queued record on
every call: four batch calls, the last error is reported and the record is
still queued. -/
theorem C9_retry_exhaustion_witness :
    (_flush (World.fresh (sampleWriter refusingClient 6 [.flag true]))).1.fx.calls.length = 4
    ∧ (_flush (World.fresh (sampleWriter refusingClient 6 [.flag true]))).2
        = .error (.error "Failed to write 1 records")
    ∧ (_flush (World.fresh (sampleWriter refusingClient 6 [.flag true]))).1.stream.queue
        = [.flag true] :=
  ⟨(C9_retry_exhaustion (World.fresh (sampleWriter refusingClient 6 [.flag true]))
      (by decide) (fun _ _ => ⟨_, rfl, by decide⟩)).1,
   (((C9_retry_exhaustion (World.fresh (sampleWriter refusingClient 6 [.flag true]))
      (by decide) (fun _ _ => ⟨_, rfl, by decide⟩)).2.2.2.2.2 _ rfl rfl).2).trans rfl,
   (((C9_retry_exhaustion (World.fresh (sampleWriter refusingClient 6 [.flag true]))
      (by decide) (fun _ _ => ⟨_, rfl, by decide⟩)).2.2.2.2.2 _ rfl rfl).1).trans rfl⟩

/-! ## The wire format -/

theorem removeTrailing_append (text delimiter : String) :
    removeTrailing (text ++ delimiter) delimiter = text := by
  have hlen : (text ++ delimiter).length - delimiter.length = text.data.length := by
    rw [String.length_append]
    exact Nat.add_sub_cancel text.length delimiter.length
  unfold removeTrailing
  rw [hlen, String.data_append, List.take_left]

theorem orStr_empty (v : Option String) : orStr v "" = v.getD "" := by
  cases v with
  | none => rfl
  | some s =>
    by_cases h : s = ""
    · simp [orStr, h]
    · simp [orStr, h]

theorem new_delimiter (client : Option (Client ε)) (streamName : Option String)
    (options : Option Options) (fx : Effects α) (s : FirehoseWritable α ε)
    (h : (FirehoseWritable.new client streamName options fx).1 = .ok s) :
    s.delimiter = (options.getD {}).delimiter.getD "" := by
  unfold FirehoseWritable.new at h
  cases client with
  | none => cases h
  | some c =>
    simp only at h
    split at h
    · split at h
      · cases h
        exact orStr_empty _
      · cases h
    · cases h

/-! ## The wire format: serializing and reading back -/
theorem digit_toNat (d : Nat) (h : d < 10) : (Char.ofNat (48 + d)).toNat = 48 + d := by
  interval_cases d <;> rfl

theorem isDigit_digit (d : Nat) (h : d < 10) : isDecimalDigit (Char.ofNat (48 + d)) = true := by
  interval_cases d <;> rfl

theorem digitsValue_snoc (digits : List Char) (c : Char) :
    digitsValue (digits ++ [c]) = digitsValue digits * 10 + (c.toNat - 48) := by
  simp [digitsValue, List.foldl_append]

theorem decimalDigits_spec (fuel : Nat) :
    ∀ n, n < fuel → ∃ c tail, decimalDigits fuel n = c :: tail
      ∧ isDecimalDigit c = true ∧ (∀ d ∈ tail, isDecimalDigit d = true)
      ∧ digitsValue (c :: tail) = n
      ∧ (0 < n → c ≠ '0')
      ∧ (n = 0 → c = '0' ∧ tail = []) := by
  induction fuel with
  | zero => intro n h; omega
  | succ fuel ih =>
    intro n h
    unfold decimalDigits
    by_cases hn : n < 10
    · rw [if_pos hn]
      refine ⟨_, [], rfl, isDigit_digit n hn, by simp, ?_, ?_, ?_⟩
      · simp [digitsValue, digit_toNat n hn]
      · intro hpos
        interval_cases n <;> first | omega | decide
      · intro h0
        subst h0
        exact ⟨rfl, rfl⟩
    · rw [if_neg hn]
      obtain ⟨c, tail, he, hc, ht, hv, hpos, _⟩ := ih (n / 10) (by omega)
      have hmod : n % 10 < 10 := Nat.mod_lt _ (by decide)
      refine ⟨c, tail ++ [Char.ofNat (48 + n % 10)], by rw [he]; rfl, hc, ?_, ?_, ?_, ?_⟩
      · intro d hd
        rcases List.mem_append.mp hd with hd | hd
        · exact ht d hd
        · simp only [List.mem_singleton] at hd
          rw [hd]
          exact isDigit_digit _ hmod
      · rw [← List.cons_append, digitsValue_snoc, hv, digit_toNat _ hmod]
        omega
      · intro _
        exact hpos (by omega)
      · intro h0
        omega

theorem takeWhile_digits (digits rest : List Char) (hd : ∀ d ∈ digits, isDecimalDigit d = true)
    (hr : noDigitAhead rest) :
    (digits ++ rest).takeWhile isDecimalDigit = digits ∧ (digits ++ rest).dropWhile isDecimalDigit = rest := by
  induction digits with
  | nil =>
    cases rest with
    | nil => exact ⟨rfl, rfl⟩
    | cons c tail =>
      simp [List.takeWhile_cons, List.dropWhile_cons, hr c tail rfl]
  | cons d digits ih =>
    have := ih (fun x hx => hd x (List.mem_cons_of_mem _ hx))
    simp [List.takeWhile_cons, List.dropWhile_cons, hd d (List.mem_cons_self _ _), this]

theorem parseNatural_decimal (n : Nat) (rest : List Char) (hr : noDigitAhead rest) :
    parseNatural (decimal n ++ rest) = some (n, rest) := by
  obtain ⟨c, tail, he, hc, ht, hv, hpos, hzero⟩ := decimalDigits_spec (n + 1) n (by omega)
  unfold decimal
  rw [he]
  simp only [List.cons_append, parseNatural]
  by_cases h0 : n = 0
  · obtain ⟨hc0, ht0⟩ := hzero h0
    rw [if_pos hc0, ht0, h0]
    rfl
  · rw [if_neg (hpos (by omega)), if_pos hc, (takeWhile_digits tail rest ht hr).1,
      (takeWhile_digits tail rest ht hr).2, hv]


theorem parseString_quote (rest : List Char) :
    parseString (quoteMark :: rest) = some ([], rest) := by
  rw [parseString, if_pos rfl]

theorem parseString_plain (c : Char) (rest : List Char) (h1 : c ≠ quoteMark)
    (h2 : c ≠ reverseSolidus) (h3 : ¬ c.toNat < 32) :
    parseString (c :: rest) = (parseString rest).map (fun p => (c :: p.1, p.2)) := by
  rw [parseString, if_neg h1, if_neg h2, if_neg h3]

theorem parseString_pair (e ch : Char) (tail : List Char) (hu : e ≠ 'u')
    (he : unescape e = some ch) :
    parseString (reverseSolidus :: e :: tail)
      = (parseString tail).map (fun p => (ch :: p.1, p.2)) := by
  have hq : reverseSolidus ≠ quoteMark := by decide
  rw [parseString, if_neg hq, if_pos rfl, parseEscaped, if_neg hu, he]

theorem parseString_unicode (h1 h2 h3 h4 ch : Char) (tail : List Char)
    (hd : decodeUnicode h1 h2 h3 h4 = some ch) :
    parseString (reverseSolidus :: 'u' :: h1 :: h2 :: h3 :: h4 :: tail)
      = (parseString tail).map (fun p => (ch :: p.1, p.2)) := by
  have hq : reverseSolidus ≠ quoteMark := by decide
  rw [parseString, if_neg hq, if_pos rfl, parseEscaped, if_pos rfl, parseUnicode, hd]

theorem hexValue_hexDigit (k : Nat) (h : k < 16) : hexValue (hexDigit k) = some k := by
  interval_cases k <;> rfl

theorem parseString_escapeChar (c : Char) (tail : List Char) :
    parseString (escapeChar c ++ tail) = (parseString tail).map (fun p => (c :: p.1, p.2)) := by
  unfold escapeChar
  by_cases h1 : c = quoteMark
  · rw [if_pos h1, h1]
    exact parseString_pair quoteMark quoteMark tail (by decide) rfl
  rw [if_neg h1]
  by_cases h2 : c = reverseSolidus
  · rw [if_pos h2, h2]
    exact parseString_pair reverseSolidus reverseSolidus tail (by decide) rfl
  rw [if_neg h2]
  by_cases h3 : c = Char.ofNat 8
  · rw [if_pos h3, h3]
    exact parseString_pair 'b' (Char.ofNat 8) tail (by decide) rfl
  rw [if_neg h3]
  by_cases h4 : c = Char.ofNat 12
  · rw [if_pos h4, h4]
    exact parseString_pair 'f' (Char.ofNat 12) tail (by decide) rfl
  rw [if_neg h4]
  by_cases h5 : c = Char.ofNat 10
  · rw [if_pos h5, h5]
    exact parseString_pair 'n' (Char.ofNat 10) tail (by decide) rfl
  rw [if_neg h5]
  by_cases h6 : c = Char.ofNat 13
  · rw [if_pos h6, h6]
    exact parseString_pair 'r' (Char.ofNat 13) tail (by decide) rfl
  rw [if_neg h6]
  by_cases h7 : c = Char.ofNat 9
  · rw [if_pos h7, h7]
    exact parseString_pair 't' (Char.ofNat 9) tail (by decide) rfl
  rw [if_neg h7]
  by_cases h8 : c.toNat < 32
  · rw [if_pos h8]
    have hz : hexValue '0' = some 0 := rfl
    have ha := hexValue_hexDigit (c.toNat / 16) (by omega)
    have hb := hexValue_hexDigit (c.toNat % 16) (Nat.mod_lt _ (by decide))
    have hcode : ((0 * 16 + 0) * 16 + c.toNat / 16) * 16 + c.toNat % 16 = c.toNat := by omega
    have hd : decodeUnicode '0' '0' (hexDigit (c.toNat / 16)) (hexDigit (c.toNat % 16))
        = some c := by
      simp only [decodeUnicode, hz, ha, hb, hcode, Char.ofNat_toNat]
      rw [if_neg (by omega)]
    exact parseString_unicode _ _ _ _ c tail hd
  · rw [if_neg h8]
    exact parseString_plain c tail h1 h2 h8

theorem parseString_escape (s rest : List Char) :
    parseString (s.flatMap escapeChar ++ quoteMark :: rest) = some (s, rest) := by
  induction s with
  | nil => exact parseString_quote rest
  | cons c s ih =>
    rw [List.flatMap_cons, List.append_assoc, parseString_escapeChar, ih]
    rfl

theorem parseString_quoteJSON (s tail : List Char) :
    ∃ body, quoteJSON s ++ tail = quoteMark :: body ∧ parseString body = some (s, tail) := by
  refine ⟨s.flatMap escapeChar ++ quoteMark :: tail, ?_, parseString_escape s tail⟩
  simp [quoteJSON]


theorem isDigit_ne (c d : Char) (hc : isDecimalDigit c = true) (hd : isDecimalDigit d = false) : c ≠ d := by
  intro h
  rw [h, hd] at hc
  cases hc

theorem integer_head (n : Int) :
    ∃ c tail, integer n = c :: tail ∧ (c = '-' ∨ isDecimalDigit c = true) := by
  cases n with
  | ofNat m =>
    obtain ⟨c, tail, he, hc, _⟩ := decimalDigits_spec (m + 1) m (by omega)
    exact ⟨c, tail, he, Or.inr hc⟩
  | negSucc m => exact ⟨'-', _, rfl, Or.inl rfl⟩

theorem json_head (v : Js) (text : List Char) (h : v.json = some text) :
    ∃ c tail, text = c :: tail ∧ c ≠ ']' := by
  cases v with
  | undefined => simp [Js.json] at h
  | null => simp [Js.json] at h; subst h; exact ⟨_, _, rfl, by decide⟩
  | bool b =>
    cases b <;> simp [Js.json] at h <;> subst h <;> exact ⟨_, _, rfl, by decide⟩
  | num n =>
    simp [Js.json] at h; subst h
    obtain ⟨c, tail, he, hc⟩ := integer_head n
    refine ⟨c, tail, he, ?_⟩
    rcases hc with hc | hc
    · rw [hc]; decide
    · exact isDigit_ne c ']' hc (by decide)
  | str s => simp [Js.json, quoteJSON] at h; subst h; exact ⟨_, _, rfl, by decide⟩
  | arr items => simp [Js.json] at h; subst h; exact ⟨_, _, rfl, by decide⟩
  | obj fields => simp [Js.json] at h; subst h; exact ⟨_, _, rfl, by decide⟩

theorem json_of_representable (v : Js) (h : v.representable = true) :
    ∃ text, v.json = some text := by
  cases v with
  | undefined => simp [Js.representable] at h
  | null => exact ⟨_, rfl⟩
  | bool b => cases b <;> exact ⟨_, rfl⟩
  | num n => exact ⟨_, rfl⟩
  | str s => exact ⟨_, rfl⟩
  | arr items => exact ⟨_, rfl⟩
  | obj fields => exact ⟨_, rfl⟩

theorem parseValue_integer (fuel : Nat) (n : Int) (rest : List Char) (hr : noDigitAhead rest) :
    parseValue (fuel + 1) (integer n ++ rest) = some (.num n, rest) := by
  cases n with
  | ofNat m =>
    obtain ⟨c, tail, he, hc, _⟩ := decimalDigits_spec (m + 1) m (by omega)
    have hp := parseNatural_decimal m rest hr
    have hi : integer (Int.ofNat m) = c :: tail := he
    have hd : decimal m = c :: tail := he
    rw [hi, List.cons_append, parseValue,
      if_neg (isDigit_ne c 'n' hc (by decide)), if_neg (isDigit_ne c 't' hc (by decide)),
      if_neg (isDigit_ne c 'f' hc (by decide)), if_neg (isDigit_ne c quoteMark hc (by decide)),
      if_neg (isDigit_ne c '-' hc (by decide)), if_pos hc, ← List.cons_append, ← hd, hp]
    rfl
  | negSucc m =>
    have hp := parseNatural_decimal (m + 1) rest hr
    have hi : integer (Int.negSucc m) = '-' :: decimal (m + 1) := rfl
    rw [hi, List.cons_append, parseValue, if_neg (by decide), if_neg (by decide),
      if_neg (by decide), if_neg (by decide), if_pos rfl, hp]
    rfl

theorem parseValue_string (fuel : Nat) (s : String) (rest : List Char) :
    parseValue (fuel + 1) (quoteJSON s.data ++ rest) = some (.str s, rest) := by
  obtain ⟨body, hb, hp⟩ := parseString_quoteJSON s.data rest
  rw [hb, parseValue, if_neg (by decide), if_neg (by decide), if_neg (by decide), if_pos rfl, hp]
  rfl


theorem expect_word (word rest : List Char) (value : Js) :
    expect word value (word ++ rest) = some (value, rest) := by
  unfold expect
  rw [if_pos (by simp), List.drop_left]

theorem noDigitAhead_cons (c : Char) (tail : List Char) (h : isDecimalDigit c = false) :
    noDigitAhead (c :: tail) := by
  intro d rest hd
  cases hd
  exact h

theorem elements_cons (item : Js) (rest : List Js) (text : List Char)
    (h : item.json = some text) :
    Js.elements (item :: rest) = text :: Js.elements rest := by
  simp [Js.elements, h]

theorem members_cons (key : String) (value : Js) (rest : List (String × Js))
    (text : List Char) (h : value.json = some text) :
    Js.members ((key, value) :: rest) = (quoteJSON key.data ++ ':' :: text) :: Js.members rest := by
  simp [Js.members, h]

theorem elements_eq_nil (items : List Js) (h : Js.elements items = []) : items = [] := by
  cases items with
  | nil => rfl
  | cons item rest => simp [Js.elements] at h

theorem joinComma_cons_cons (t u : List Char) (rest : List (List Char)) :
    joinComma (t :: u :: rest) = t ++ ',' :: joinComma (u :: rest) := rfl

theorem roundTrip (fuel : Nat) :
    (∀ (v : Js) (text rest : List Char), v.representable = true → v.json = some text →
      text.length ≤ fuel → noDigitAhead rest → parseValue fuel (text ++ rest) = some (v, rest))
    ∧ (∀ (items : List Js) (rest : List Char), items ≠ [] → Js.allRepresentable items = true →
      (joinComma (Js.elements items)).length + 1 ≤ fuel →
      parseElements fuel (joinComma (Js.elements items) ++ ']' :: rest) = some (items, rest))
    ∧ (∀ (fields : List (String × Js)) (rest : List Char), fields ≠ [] →
      Js.fieldsRepresentable fields = true →
      (joinComma (Js.members fields)).length + 1 ≤ fuel →
      parseMembers fuel (joinComma (Js.members fields) ++ rightBrace :: rest)
        = some (fields, rest)) := by
  induction fuel with
  | zero =>
    refine ⟨?_, ?_, ?_⟩
    · intro v text rest _ hj hlen _
      obtain ⟨c, tail, ht, _⟩ := json_head v text hj
      rw [ht] at hlen
      simp at hlen
    · intro items rest _ _ hlen
      omega
    · intro fields rest _ _ hlen
      omega
  | succ fuel ih =>
    obtain ⟨ihV, ihE, ihM⟩ := ih
    refine ⟨?_, ?_, ?_⟩
    · intro v text rest hrep hj hlen hrest
      cases v with
      | undefined => simp [Js.representable] at hrep
      | null =>
        simp only [Js.json, Option.some.injEq] at hj
        subst hj
        rw [List.cons_append, parseValue, if_pos rfl]
        exact expect_word ['u', 'l', 'l'] rest .null
      | bool b =>
        cases b with
        | true =>
          simp only [Js.json, Option.some.injEq] at hj
          subst hj
          rw [List.cons_append, parseValue, if_neg (by decide), if_pos rfl]
          exact expect_word ['r', 'u', 'e'] rest (.bool true)
        | false =>
          simp only [Js.json, Option.some.injEq] at hj
          subst hj
          rw [List.cons_append, parseValue, if_neg (by decide), if_neg (by decide), if_pos rfl]
          exact expect_word ['a', 'l', 's', 'e'] rest (.bool false)
      | num n =>
        simp only [Js.json, Option.some.injEq] at hj
        subst hj
        exact parseValue_integer fuel n rest hrest
      | str s =>
        simp only [Js.json, Option.some.injEq] at hj
        subst hj
        exact parseValue_string fuel s rest
      | arr items =>
        simp only [Js.json, Option.some.injEq] at hj
        subst hj
        simp only [Js.representable] at hrep
        simp only [List.length_cons, List.length_append, List.length_nil] at hlen
        rw [List.cons_append, List.append_assoc, parseValue, if_neg (by decide),
          if_neg (by decide), if_neg (by decide), if_neg (by decide), if_neg (by decide),
          if_neg (by decide), if_pos rfl]
        cases items with
        | nil =>
          simp [Js.elements, joinComma]
        | cons item more =>
          obtain ⟨text, ht⟩ := json_of_representable item
            (by simp only [Js.allRepresentable, Bool.and_eq_true] at hrep; exact hrep.1)
          obtain ⟨c, tail, hc, hne⟩ := json_head item text ht
          have hhead : (joinComma (Js.elements (item :: more)) ++ ([']'] ++ rest)).head?
              ≠ some ']' := by
            rw [elements_cons item more text ht, hc]
            cases hm : Js.elements more with
            | nil => simpa [joinComma] using hne
            | cons u us => simpa [joinComma_cons_cons] using hne
          rw [if_neg hhead]
          have := ihE (item :: more) rest (by simp) hrep (by omega)
          simp only [List.singleton_append]
          rw [this]
          rfl
      | obj fields =>
        simp only [Js.json, Option.some.injEq] at hj
        subst hj
        simp only [Js.representable, Bool.and_eq_true, decide_eq_true_eq] at hrep
        simp only [List.length_cons, List.length_append, List.length_nil] at hlen
        rw [List.cons_append, List.append_assoc, parseValue, if_neg (by decide),
          if_neg (by decide), if_neg (by decide), if_neg (by decide), if_neg (by decide),
          if_neg (by decide), if_neg (by decide), if_pos rfl]
        cases fields with
        | nil =>
          simp [Js.members, joinComma]
        | cons field more =>
          obtain ⟨key, value⟩ := field
          obtain ⟨text, ht⟩ := json_of_representable value
            (by
              have := hrep.1
              simp only [Js.fieldsRepresentable, Bool.and_eq_true] at this
              exact this.1)
          have hhead : (joinComma (Js.members ((key, value) :: more))
              ++ ([rightBrace] ++ rest)).head? ≠ some rightBrace := by
            rw [members_cons key value more text ht]
            have hq : quoteMark ≠ rightBrace := by decide
            cases hm : Js.members more with
            | nil => simpa [joinComma, quoteJSON] using hq
            | cons u us => simpa [joinComma_cons_cons, quoteJSON] using hq
          rw [if_neg hhead]
          have := ihM ((key, value) :: more) rest (by simp) hrep.1 (by omega)
          simp only [List.singleton_append]
          rw [this]
          simp only [Option.some_bind]
          rw [if_pos hrep.2]
    · intro items rest hne hrep hlen
      cases items with
      | nil => exact absurd rfl hne
      | cons item more =>
        simp only [Js.allRepresentable, Bool.and_eq_true] at hrep
        obtain ⟨text, ht⟩ := json_of_representable item hrep.1
        rw [elements_cons item more text ht] at hlen ⊢
        rw [parseElements]
        cases more with
        | nil =>
          simp only [Js.elements, joinComma] at hlen ⊢
          rw [ihV item text (']' :: rest) hrep.1 ht (by omega)
            (noDigitAhead_cons _ _ (by decide))]
          simp only [Option.some_bind, List.head?_cons, List.tail_cons, if_true, if_false,
            Option.some.injEq]
          rw [if_neg (by decide : (']' : Char) ≠ ',')]
        | cons next others =>
          obtain ⟨text2, ht2⟩ := json_of_representable next
            (by
              have := hrep.2
              simp only [Js.allRepresentable, Bool.and_eq_true] at this
              exact this.1)
          rw [elements_cons next others text2 ht2] at hlen ⊢
          rw [joinComma_cons_cons] at hlen ⊢
          simp only [List.length_append, List.length_cons] at hlen
          rw [List.append_assoc, List.cons_append,
            ihV item text _ hrep.1 ht (by omega) (noDigitAhead_cons _ _ (by decide))]
          simp only [Option.some_bind, List.head?_cons, List.tail_cons, if_true, if_false]
          have := ihE (next :: others) rest (by simp) hrep.2
            (by rw [elements_cons next others text2 ht2]; omega)
          rw [elements_cons next others text2 ht2] at this
          rw [this]
          rfl
    · intro fields rest hne hrep hlen
      cases fields with
      | nil => exact absurd rfl hne
      | cons field more =>
        obtain ⟨key, value⟩ := field
        simp only [Js.fieldsRepresentable, Bool.and_eq_true] at hrep
        obtain ⟨text, ht⟩ := json_of_representable value hrep.1
        rw [members_cons key value more text ht] at hlen ⊢
        cases more with
        | nil =>
          simp only [Js.members, joinComma] at hlen ⊢
          simp only [List.length_append, List.length_cons] at hlen
          obtain ⟨body, hb, hp⟩ := parseString_quoteJSON key.data
            (':' :: (text ++ rightBrace :: rest))
          have hin : quoteJSON key.data ++ ':' :: text ++ rightBrace :: rest
              = quoteMark :: body := by
            rw [← hb]; simp
          rw [hin, parseMembers, if_pos rfl, hp]
          simp only [Option.some_bind, List.head?_cons, List.tail_cons, if_true, if_false]
          rw [ihV value text (rightBrace :: rest) hrep.1 ht (by omega)
            (noDigitAhead_cons _ _ (by decide))]
          simp only [Option.some_bind, List.head?_cons, List.tail_cons, if_true, if_false,
            Option.some.injEq]
          rw [if_neg (by decide : rightBrace ≠ ',')]
        | cons next others =>
          obtain ⟨key2, value2⟩ := next
          obtain ⟨text2, ht2⟩ := json_of_representable value2
            (by
              have := hrep.2
              simp only [Js.fieldsRepresentable, Bool.and_eq_true] at this
              exact this.1)
          rw [members_cons key2 value2 others text2 ht2] at hlen ⊢
          rw [joinComma_cons_cons] at hlen ⊢
          simp only [List.length_append, List.length_cons] at hlen
          obtain ⟨body, hb, hp⟩ := parseString_quoteJSON key.data
            (':' :: (text ++ ',' :: (joinComma ((quoteJSON key2.data ++ ':' :: text2)
              :: Js.members others) ++ rightBrace :: rest)))
          have hin : quoteJSON key.data ++ ':' :: text
                ++ ',' :: joinComma ((quoteJSON key2.data ++ ':' :: text2) :: Js.members others)
                ++ rightBrace :: rest
              = quoteMark :: body := by
            rw [← hb]; simp
          rw [hin, parseMembers, if_pos rfl, hp]
          simp only [Option.some_bind, List.head?_cons, List.tail_cons, if_true, if_false]
          rw [ihV value text _ hrep.1 ht (by omega)
            (noDigitAhead_cons _ _ (by decide))]
          simp only [Option.some_bind, List.head?_cons, List.tail_cons, if_true, if_false]
          have := ihM ((key2, value2) :: others) rest (by simp) hrep.2
            (by rw [members_cons key2 value2 others text2 ht2]; omega)
          rw [members_cons key2 value2 others text2 ht2] at this
          rw [this]
          rfl

theorem parse_json (record : Js) (text : List Char) (hrep : record.representable = true)
    (htext : record.json = some text) :
    JSON.parse (String.mk text) = some record := by
  have h := (roundTrip (text.length + 1)).1 record text [] hrep htext (by omega)
    (by intro c tail hc; cases hc)
  rw [List.append_nil] at h
  unfold JSON.parse
  show (match parseValue (text.length + 1) text with
    | some (value, []) => some value
    | _ => none) = some record
  rw [h]

/-- C10, as stated, fails: for the record `undefined`, `JSON.stringify` returns
`undefined` and no text, `Data` is the text `undefined` followed by the
delimiter, and what is left after removing the delimiter does not deserialize;
for an array holding `undefined` it deserializes to an array holding `null`. -/
theorem C10_wire_format_round_trip_counterexample :
    JSON.stringify Js.undefined = none
    ∧ ((jsonWriter "").transformRecord Js.undefined).Data = "undefined"
    ∧ ((jsonWriter ",").transformRecord Js.undefined).Data = "undefined,"
    ∧ JSON.parse (removeTrailing ((jsonWriter ",").transformRecord Js.undefined).Data ",")
        = none
    ∧ JSON.parse (removeTrailing
        ((jsonWriter ",").transformRecord (Js.arr [Js.undefined])).Data ",")
        = some (Js.arr [Js.null]) :=
  ⟨rfl, rfl, rfl, rfl, rfl⟩

/-- C10, amended: for every record that is JSON data (built from `null`,
booleans, safe integers, strings, arrays and objects with distinct keys, with
no `undefined` in it) and every delimiter, `transformRecord(r)` is the object
whose `Data` is the text `JSON.stringify(r)` followed by the writer's
delimiter, which is the configured one (empty when none is configured);
removing the trailing delimiter from `Data` and deserializing the rest gives
back r; and with the empty delimiter `Data` is exactly `JSON.stringify(r)`. -/
theorem C10_wire_format_round_trip (self : FirehoseWritable Js ε) (record : Js)
    (hdata : record.representable = true) :
    (∃ text, JSON.stringify record = some text
      ∧ self.transformRecord record = { Data := text ++ self.delimiter })
    ∧ JSON.parse (removeTrailing (self.transformRecord record).Data self.delimiter)
        = some record
    ∧ (self.delimiter = "" →
        JSON.stringify record = some (self.transformRecord record).Data)
    ∧ (∀ (client : Option (Client ε)) (streamName : Option String) (options : Option Options)
        (fx : Effects Js),
        (FirehoseWritable.new client streamName options fx).1 = .ok self →
        self.delimiter = (options.getD {}).delimiter.getD "") := by
  obtain ⟨text, htext⟩ := json_of_representable record hdata
  have hs : JSON.stringify record = some (String.mk text) := by
    simp [JSON.stringify, htext]
  have ht : self.transformRecord record = { Data := String.mk text ++ self.delimiter } := by
    show ({ Data := (JSON.stringify record).getD "undefined" ++ self.delimiter } : WireRecord)
      = _
    rw [hs]
    rfl
  refine ⟨⟨_, hs, ht⟩, ?_, ?_, ?_⟩
  · rw [ht]
    show JSON.parse (removeTrailing (String.mk text ++ self.delimiter) self.delimiter) = _
    rw [removeTrailing_append]
    exact parse_json record text hdata htext
  · intro hd
    rw [ht, hs, hd]
    simp
  · intro client streamName options fx h
    exact new_delimiter client streamName options fx self h

/-- C10 (amended) at the record of the test suite, an object with the property
foo holding the string bar, and the delimiter `,`: the text read back after
removing the delimiter is the record; and the payload of an array record. -/
theorem C10_wire_format_round_trip_witness :
    JSON.parse (removeTrailing
        ((jsonWriter ",").transformRecord (Js.obj [("foo", Js.str "bar")])).Data ",")
      = some (Js.obj [("foo", Js.str "bar")])
    ∧ ((jsonWriter ",").transformRecord (Js.arr [Js.num (-12), Js.bool true, Js.null])).Data
      = "[-12,true,null]," :=
  ⟨(C10_wire_format_round_trip (jsonWriter ",") (Js.obj [("foo", Js.str "bar")])
      (by decide)).2.1,
   rfl⟩

/-! ## Writing on after a failed flush -/

theorem writeEach_append [JsValue α] (first second : List α) :
    ∀ w : World α ε, writeEach w (first ++ second) = writeEach (writeEach w first) second := by
  induction first with
  | nil => intro w; rfl
  | cons record rest ih => intro w; exact ih _

theorem writeEach_below [JsValue α] (records : List α) :
    ∀ w : World α ε, w.stream.queue.length + records.length < w.stream.highWaterMark →
      (writeEach w records).stream = { w.stream with queue := w.stream.queue ++ records }
      ∧ (writeEach w records).fx.calls = w.fx.calls := by
  induction records with
  | nil => intro w _; simp [writeEach]
  | cons record rest ih =>
    intro w h
    simp only [List.length_cons] at h
    unfold writeEach
    rw [write_below w record (by omega)]
    have := ih { stream := { w.stream with queue := w.stream.queue ++ [record] }
                 fx := { w.fx with
                         logs := logIf w.stream.logger
                           ⟨.debug, "Adding to Firehose queue", .record record⟩ w.fx.logs } }
      (by simp only [List.length_append, List.length_singleton]; omega)
    simpa using this

theorem write_all_err [JsValue α] (w : World α ε) (record : α) (e : ε)
    (hreach : w.stream.highWaterMark ≤ w.stream.queue.length + 1)
    (hsvc : ∀ n, w.stream.client n = .err e) :
    (_write w record).1.stream = { w.stream with queue := w.stream.queue ++ [record] }
    ∧ (_write w record).1.fx.calls
        = w.fx.calls ++ List.replicate (w.stream.maxRetries + 1)
            { Records := (w.stream.queue ++ [record]).map w.stream.transformRecord
              DeliveryStreamName := w.stream.streamName }
    ∧ (_write w record).2 = .error (.client e) := by
  rw [write_reach w record hreach, flush_nonempty _ (by simp)]
  obtain ⟨h1, h2, h3⟩ := retryLoop_all_err
    { retries := w.stream.maxRetries, timeout := fib w.stream.retryTimeout } e
    w.stream.maxRetries 0
    { stream := { w.stream with queue := w.stream.queue ++ [record] }
      fx := { w.fx with
              logs := logIf w.stream.logger
                ⟨.debug, "Adding to Firehose queue", .record record⟩ w.fx.logs } }
    (fun n _ => hsvc n)
  refine ⟨h2, ?_, h1⟩
  rw [h3]
  simp [FirehoseWritable.request, FirehoseWritable.transformRecord]

theorem write_past_mark [JsValue α] (s : FirehoseWritable α ε) (e : ε)
    (records : List α) (last extra : α)
    (hfresh : s.queue = [])
    (hlen : records.length + 1 = s.highWaterMark)
    (hsvc : ∀ n, s.client n = .err e) :
    (writeEach (World.fresh s) (records ++ [last])).stream.queue = records ++ [last]
    ∧ (writeEach (World.fresh s) (records ++ [last] ++ [extra])).stream.queue
        = records ++ [last] ++ [extra]
    ∧ (writeEach (World.fresh s) (records ++ [last] ++ [extra])).fx.calls.getLast?
        = some { Records := (records ++ [last] ++ [extra]).map s.transformRecord
                 DeliveryStreamName := s.streamName } := by
  obtain ⟨bs, _⟩ := writeEach_below records (World.fresh s)
    (by simp [World.fresh, hfresh]; omega)
  have hs1 : (writeEach (World.fresh s) records).stream = { s with queue := records } := by
    rw [bs]; simp [World.fresh, hfresh]
  have h1 := write_all_err (writeEach (World.fresh s) records) last e
    (by rw [hs1]; simp; omega) (by rw [hs1]; exact hsvc)
  have hw1 : writeEach (World.fresh s) (records ++ [last])
      = (_write (writeEach (World.fresh s) records) last).1 := by
    rw [writeEach_append]; rfl
  have hs2 : (writeEach (World.fresh s) (records ++ [last])).stream
      = { s with queue := records ++ [last] } := by
    rw [hw1, h1.1, hs1]
  have h2 := write_all_err (writeEach (World.fresh s) (records ++ [last])) extra e
    (by rw [hs2]; simp; omega) (by rw [hs2]; exact hsvc)
  have hw2 : writeEach (World.fresh s) (records ++ [last] ++ [extra])
      = (_write (writeEach (World.fresh s) (records ++ [last])) extra).1 := by
    rw [writeEach_append]; rfl
  refine ⟨by rw [hs2], by rw [hw2, h2.1, hs2], ?_⟩
  rw [hw2, h2.2.1, hs2, List.replicate_succ']
  simp [FirehoseWritable.transformRecord]

/-- C11 fails on the code: a writer with highWaterMark 500, as the constructor
builds it, whose client fails every batch call keeps its 500 records after the
failed flush of the 500th write; the 501st write is pushed onto them and its
flush sends a batch of 501 records, and the 502nd write would find 501 records
queued. -/
theorem C11_queue_grows_past_high_water_mark :
    (FirehoseWritable.new (some brokenClient) (some "streamName")
        (some { highWaterMark := some 500 }) ({} : Effects Sample)).1
      = .ok (sampleWriter brokenClient 500 [])
    ∧ (writeEach (World.fresh (sampleWriter brokenClient 500 []))
        (List.replicate 499 (Sample.num 0) ++ [Sample.num 0])).stream.queue.length = 500
    ∧ (writeEach (World.fresh (sampleWriter brokenClient 500 []))
        (List.replicate 499 (Sample.num 0) ++ [Sample.num 0] ++ [Sample.num 1])).stream.queue.length
        = 501
    ∧ ((writeEach (World.fresh (sampleWriter brokenClient 500 []))
        (List.replicate 499 (Sample.num 0) ++ [Sample.num 0] ++ [Sample.num 1])).fx.calls.getLast?).map
          (fun request => request.Records.length) = some 501 := by
  obtain ⟨h1, h2, h3⟩ := write_past_mark (sampleWriter brokenClient 500 []) "Fail"
    (List.replicate 499 (Sample.num 0)) (Sample.num 0) (Sample.num 1) rfl
    (by show (List.replicate 499 (Sample.num 0)).length + 1 = 500
        rw [List.length_replicate]) (fun _ => rfl)
  refine ⟨rfl, ?_, ?_, ?_⟩
  · rw [h1, List.length_append, List.length_replicate]; rfl
  · rw [h2, List.length_append, List.length_append, List.length_replicate]; rfl
  · rw [h3, Option.map_some', List.length_map, List.length_append, List.length_append,
      List.length_replicate]; rfl

/-! ## What the constructor does with the options -/

theorem new_ok (client : Option (Client ε)) (streamName : Option String)
    (options : Option Options) (fx : Effects α) (s : FirehoseWritable α ε)
    (h : (FirehoseWritable.new client streamName options fx).1 = .ok s) :
    s.highWaterMark = orNat (options.getD {}).highWaterMark 16
    ∧ s.maxRetries = orNat (options.getD {}).maxRetries 3
    ∧ s.delimiter = orStr (options.getD {}).delimiter ""
    ∧ s.logger = (options.getD {}).logger
    ∧ s.retryTimeout = none
    ∧ s.queue = [] := by
  unfold FirehoseWritable.new at h
  cases client with
  | none => cases h
  | some c =>
    simp only at h
    split at h
    · split at h
      · cases h
        exact ⟨rfl, rfl, rfl, rfl, rfl, rfl⟩
      · cases h
    · cases h

theorem new_ignores_retryTimeout (client : Option (Client ε)) (streamName : Option String)
    (options : Options) (timeout : Option Nat) (fx : Effects α) :
    (FirehoseWritable.new client streamName (some { options with retryTimeout := timeout }) fx
      : Except String (FirehoseWritable α ε) × Effects α)
      = FirehoseWritable.new client streamName (some options) fx := by
  rfl

theorem orNat_pos (n d : Nat) (h : 0 < n) : orNat (some n) d = n := by
  cases n with
  | zero => omega
  | succ n => rfl

/-- C12 fails on the code: the constructor leaves `retryTimeout` without a
number whether `options.retryTimeout` is 250 or omitted, so the schedule
`_flush` hands to the retry driver has no number as its seed and the three
retries of a failing flush are scheduled without a delay value, where the
schedule seeded by 250 is 250, 250, 500 and the documented default seeds it
with 100. -/
theorem C12_retry_timeout_not_read :
    (FirehoseWritable.new (some brokenClient) (some "streamName")
        (some { retryTimeout := some 250 }) ({} : Effects Sample)).1.toOption.map
        (fun s => s.retryTimeout) = some none
    ∧ (FirehoseWritable.new (some brokenClient) (some "streamName")
        (some {}) ({} : Effects Sample)).1.toOption.map
        (fun s => s.retryTimeout) = some none
    ∧ (FirehoseWritable.new (some brokenClient) (some "streamName")
        (some { retryTimeout := some 250 }) ({} : Effects Sample)).1.toOption.map
        (fun s => (_flush { stream := { s with queue := [Sample.flag true] }
                            fx := {} }).1.fx.waits) = some [none, none, none]
    ∧ (List.range 3).map (fib (some 250)) = [some 250, some 250, some 500]
    ∧ (List.range 3).map (fib (some 100)) = [some 100, some 100, some 200] :=
  ⟨rfl, rfl, rfl, rfl, rfl⟩

/-- C13 fails on the code at maxRetries = 0: the constructor accepts the
options and builds a writer whose maxRetries is 3, so a flush whose every
attempt fails makes four batch calls where the configured value asks for one
attempt and no retry. -/
theorem C13_zero_retries_not_honoured :
    (FirehoseWritable.new (some brokenClient) (some "streamName")
        (some { maxRetries := some 0 }) ({} : Effects Sample)).1.toOption.map
        (fun s => s.maxRetries) = some 3
    ∧ (FirehoseWritable.new (some brokenClient) (some "streamName")
        (some { maxRetries := some 0 }) ({} : Effects Sample)).1.toOption.map
        (fun s => (_flush { stream := { s with queue := [Sample.flag true] }
                            fx := {} }).1.fx.calls.length) = some 4 :=
  ⟨rfl, rfl⟩

theorem new_configuration (client : Option (Client ε)) (streamName : Option String)
    (options : Option Options) (fx : Effects α) (s : FirehoseWritable α ε)
    (h : (FirehoseWritable.new client streamName options fx).1 = .ok s) :
    (∀ n, (options.getD {}).highWaterMark = some n → 1 ≤ n → s.highWaterMark = n)
    ∧ ((options.getD {}).highWaterMark = none → s.highWaterMark = 16)
    ∧ (∀ n, (options.getD {}).maxRetries = some n → 1 ≤ n → s.maxRetries = n)
    ∧ ((options.getD {}).maxRetries = none → s.maxRetries = 3)
    ∧ (∀ d, (options.getD {}).delimiter = some d → s.delimiter = d)
    ∧ ((options.getD {}).delimiter = none → s.delimiter = "")
    ∧ s.highWaterMark ≤ 500 := by
  obtain ⟨h1, h2, h3, _, _, _⟩ := new_ok client streamName options fx s h
  refine ⟨?_, ?_, ?_, ?_, ?_, ?_, ?_⟩
  · intro n hn hpos
    rw [h1, hn, orNat_pos n 16 hpos]
  · intro hn
    rw [h1, hn]; rfl
  · intro n hn hpos
    rw [h2, hn, orNat_pos n 3 hpos]
  · intro hn
    rw [h2, hn]; rfl
  · intro d hd
    rw [h3, hd, orStr_empty]; rfl
  · intro hd
    rw [h3, hd]; rfl
  · unfold FirehoseWritable.new at h
    cases client with
    | none => cases h
    | some c =>
      simp only at h
      split at h
      · split at h
        · rename_i hle
          cases h
          exact hle
        · cases h
      · cases h

/-! ## The logger -/

theorem forEachResponse_erase [JsValue α] (self : FirehoseWritable α ε)
    (responses : List Entry) :
    ∀ (index : Nat) (acc : List α × List (LogCall α)),
      forEachResponse { self with logger := none } responses index (acc.1, [])
        = ((forEachResponse self responses index acc).1, []) := by
  induction responses with
  | nil => intro index acc; rfl
  | cons record rest ih =>
    intro index acc
    unfold forEachResponse
    by_cases hf : record.failed = true
    · rw [if_pos hf, if_pos hf]
      exact ih (index + 1)
        (acc.1 ++ [self.queue.getD index JsValue.undefined],
         logIf self.logger
           ⟨.warn, "Failed record with message: %s", .message record.ErrorMessage⟩ acc.2)
    · rw [if_neg hf, if_neg hf]
      exact ih (index + 1) acc

theorem writeRecords_erase [JsValue α] (w : World α ε) :
    (writeRecords w).1.erase = (writeRecords w.erase).1
    ∧ (writeRecords w).2 = (writeRecords w.erase).2 := by
  unfold writeRecords
  have hc : w.erase.stream.client w.erase.fx.calls.length
      = w.stream.client w.fx.calls.length := rfl
  simp only [hc]
  cases w.stream.client w.fx.calls.length with
  | err e => exact ⟨rfl, rfl⟩
  | ok response =>
    simp only
    by_cases h0 : response.FailedPutCount ≠ 0
    · rw [if_pos h0, if_pos h0]
      have hf := forEachResponse_erase w.stream response.RequestResponses 0
        ([], logIf w.stream.logger
          ⟨.warn, "Failed writing %d records to Firehose", .count response.FailedPutCount⟩
          (logIf w.stream.logger
            ⟨.info, "Wrote %d records to Firehose",
              .count (w.stream.request.Records.length - response.FailedPutCount)⟩
            (logIf w.stream.logger
              ⟨.debug, "Writing %d records to Firehose", .count w.stream.queue.length⟩
              w.fx.logs)))
      simp only [World.erase, logIf] at hf ⊢
      rw [hf]
      exact ⟨rfl, rfl⟩
    · rw [if_neg h0, if_neg h0]
      exact ⟨rfl, rfl⟩

theorem retryLoop_erase [JsValue α] (options : RetryOptions) (left : Nat) :
    ∀ (attempt : Nat) (w : World α ε),
      (retryLoop options writeRecords left attempt w).1.erase
        = (retryLoop options writeRecords left attempt w.erase).1
      ∧ (retryLoop options writeRecords left attempt w).2
        = (retryLoop options writeRecords left attempt w.erase).2 := by
  induction left with
  | zero =>
    intro attempt w
    exact writeRecords_erase w
  | succ left ih =>
    intro attempt w
    obtain ⟨h1, h2⟩ := writeRecords_erase w
    cases hw : (writeRecords w).2 with
    | ok u =>
      rw [retryLoop_ok _ _ _ _ _ hw, retryLoop_ok _ _ _ _ _ (h2 ▸ hw)]
      exact ⟨h1, h2⟩
    | error e =>
      rw [retryLoop_error _ _ _ _ _ e hw, retryLoop_error _ _ _ _ _ e (h2 ▸ hw), ← h1]
      exact ih (attempt + 1) _

theorem flush_erase [JsValue α] (w : World α ε) :
    (_flush w).1.erase = (_flush w.erase).1 ∧ (_flush w).2 = (_flush w.erase).2 := by
  by_cases hq : w.stream.queue = []
  · rw [flush_empty w hq, flush_empty w.erase hq]
    exact ⟨rfl, rfl⟩
  · rw [flush_nonempty w hq, flush_nonempty w.erase hq]
    exact retryLoop_erase _ _ _ _

theorem write_erase [JsValue α] (w : World α ε) (record : α) :
    (_write w record).1.erase = (_write w.erase record).1
    ∧ (_write w record).2 = (_write w.erase record).2 := by
  by_cases h : w.stream.highWaterMark ≤ w.stream.queue.length + 1
  · rw [write_reach w record h, write_reach w.erase record h]
    exact flush_erase _
  · rw [write_below w record (by omega), write_below w.erase record
      (by show w.stream.queue.length + 1 < w.stream.highWaterMark; omega)]
    exact ⟨rfl, rfl⟩

/-- C14: for every world, record and client, `writeRecords`, `_flush` and
`_write` run with any logger configured (and any logger calls already made)
end with the same queue, the same batch requests and the same completion as
they do with the writer's own logger setting, in particular as with no logger
at all; forgetting the logger and its calls after the run gives the world of
the run without a logger. -/
theorem C14_logger_non_interference [JsValue α] (w : World α ε) (record : α)
    (logger : Option Logger) (logs : List (LogCall α)) :
    ((writeRecords w).1.erase = (writeRecords w.erase).1
      ∧ (_flush w).1.erase = (_flush w.erase).1
      ∧ (_write w record).1.erase = (_write w.erase record).1)
    ∧ ((writeRecords { stream := { w.stream with logger := logger }
                       fx := { w.fx with logs := logs } }).1.stream.queue
          = (writeRecords w).1.stream.queue
      ∧ (writeRecords { stream := { w.stream with logger := logger }
                        fx := { w.fx with logs := logs } }).1.fx.calls
          = (writeRecords w).1.fx.calls
      ∧ (writeRecords { stream := { w.stream with logger := logger }
                        fx := { w.fx with logs := logs } }).2 = (writeRecords w).2)
    ∧ ((_flush { stream := { w.stream with logger := logger }
                 fx := { w.fx with logs := logs } }).1.stream.queue
          = (_flush w).1.stream.queue
      ∧ (_flush { stream := { w.stream with logger := logger }
                  fx := { w.fx with logs := logs } }).1.fx.calls = (_flush w).1.fx.calls
      ∧ (_flush { stream := { w.stream with logger := logger }
                  fx := { w.fx with logs := logs } }).2 = (_flush w).2)
    ∧ ((_write { stream := { w.stream with logger := logger }
                 fx := { w.fx with logs := logs } } record).1.stream.queue
          = (_write w record).1.stream.queue
      ∧ (_write { stream := { w.stream with logger := logger }
                  fx := { w.fx with logs := logs } } record).1.fx.calls
          = (_write w record).1.fx.calls
      ∧ (_write { stream := { w.stream with logger := logger }
                  fx := { w.fx with logs := logs } } record).2 = (_write w record).2) := by
  have he : (World.erase { stream := { w.stream with logger := logger }
                           fx := { w.fx with logs := logs } } : World α ε) = w.erase := rfl
  obtain ⟨a1, a2⟩ := writeRecords_erase w
  obtain ⟨b1, b2⟩ := flush_erase w
  obtain ⟨c1, c2⟩ := write_erase w record
  obtain ⟨a3, a4⟩ := writeRecords_erase
    { stream := { w.stream with logger := logger }, fx := { w.fx with logs := logs } }
  obtain ⟨b3, b4⟩ := flush_erase
    { stream := { w.stream with logger := logger }, fx := { w.fx with logs := logs } }
  obtain ⟨c3, c4⟩ := write_erase
    { stream := { w.stream with logger := logger }, fx := { w.fx with logs := logs } } record
  rw [he] at a3 a4 b3 b4 c3 c4
  have qa := congrArg (fun v : World α ε => v.stream.queue) (a3.trans a1.symm)
  have ca := congrArg (fun v : World α ε => v.fx.calls) (a3.trans a1.symm)
  have qb := congrArg (fun v : World α ε => v.stream.queue) (b3.trans b1.symm)
  have cb := congrArg (fun v : World α ε => v.fx.calls) (b3.trans b1.symm)
  have qc := congrArg (fun v : World α ε => v.stream.queue) (c3.trans c1.symm)
  have cc := congrArg (fun v : World α ε => v.fx.calls) (c3.trans c1.symm)
  exact ⟨⟨a1, b1, c1⟩, ⟨qa, ca, a4.trans a2.symm⟩, ⟨qb, cb, b4.trans b2.symm⟩,
    ⟨qc, cc, c4.trans c2.symm⟩⟩

/-! ## The count in the error message -/

theorem forEachResponse_length [JsValue α] (self : FirehoseWritable α ε)
    (responses : List Entry) :
    ∀ (index : Nat) (acc : List α × List (LogCall α)),
      (forEachResponse self responses index acc).1.length
        = acc.1.length + (responses.filter Entry.failed).length := by
  induction responses with
  | nil => intro index acc; simp [forEachResponse]
  | cons record rest ih =>
    intro index acc
    unfold forEachResponse
    by_cases hf : record.failed = true
    · rw [if_pos hf, ih, List.filter_cons_of_pos hf]
      simp only [List.length_append, List.length_cons, List.length_nil]
      omega
    · rw [if_neg hf, ih, List.filter_cons_of_neg hf]

/-- C15, as stated, fails: the response below has FailedPutCount = 2 and two
outcomes for the two queued records, of which one carries an error code; the
attempt reports 'Failed to write 1 records' and leaves one record queued, so
the count in the message is not FailedPutCount. -/
theorem C15_failure_count_counterexample :
    (sampleWriter miscountingClient 6 [.num 0, .num 1]).client 0
        = .ok { FailedPutCount := 2, RequestResponses := [Entry.rejected, Entry.written] }
    ∧ (writeRecords (World.fresh (sampleWriter miscountingClient 6 [.num 0, .num 1]))).2
        = .error (.error "Failed to write 1 records")
    ∧ (writeRecords (World.fresh
        (sampleWriter miscountingClient 6 [.num 0, .num 1]))).1.stream.queue = [.num 0] :=
  ⟨rfl, rfl, rfl⟩

/-- C15, amended: whenever an attempt ends in partial failure (a response with
FailedPutCount != 0), the error it reports has the message 'Failed to write N
records' where N is the number of outcomes of the response that carry an error
code, which is also the number of records left in the queue after the attempt;
N is FailedPutCount whenever the response's count agrees with its outcomes. -/
theorem C15_failure_count [JsValue α] (w : World α ε) (response : Response)
    (hcall : w.stream.client w.fx.calls.length = .ok response)
    (hfail : response.FailedPutCount ≠ 0) :
    (writeRecords w).2 = .error (.error ("Failed to write "
        ++ toString (response.RequestResponses.filter Entry.failed).length ++ " records"))
    ∧ (writeRecords w).1.stream.queue.length
        = (response.RequestResponses.filter Entry.failed).length
    ∧ (response.FailedPutCount = ((response.RequestResponses.filter Entry.failed).length : Nat) →
        (writeRecords w).2 = .error (.error ("Failed to write "
          ++ toString response.FailedPutCount ++ " records"))
        ∧ ((writeRecords w).1.stream.queue.length : Int) = response.FailedPutCount) := by
  obtain ⟨logs, hs, _, _, hr⟩ := writeRecords_someFailed w response hcall hfail
  have hl := forEachResponse_length w.stream response.RequestResponses 0 ([], logs)
  simp only [List.length_nil, Nat.zero_add] at hl
  have hq : (writeRecords w).1.stream.queue.length
      = (response.RequestResponses.filter Entry.failed).length := by
    rw [hs]; exact hl
  rw [hl] at hr
  refine ⟨hr, hq, ?_⟩
  intro hcount
  refine ⟨?_, ?_⟩
  · rw [hr, hcount]
    rfl
  · rw [hq, hcount]

/-- C15 (amended) at four records with positions 1 and 3 rejected. -/
theorem C15_failure_count_witness :
    (writeRecords (World.fresh (sampleWriter rejectingClient 6
        [.num 0, .num 1, .num 2, .num 3]))).2
      = .error (.error "Failed to write 2 records") :=
  ((C15_failure_count (World.fresh (sampleWriter rejectingClient 6
      [.num 0, .num 1, .num 2, .num 3]))
      { FailedPutCount := 2
        RequestResponses := [Entry.written, Entry.rejected, Entry.written, Entry.rejected] }
      rfl (by decide)).2.2 rfl).1.trans rfl

/-! ## The attempts of one flush cycle -/

theorem forEachResponse_lookedUp [JsValue α] (self : FirehoseWritable α ε)
    (responses : List Entry) :
    ∀ (index : Nat) (acc : List α × List (LogCall α)),
      (forEachResponse self responses index acc).1
        = acc.1 ++ (lookedUp responses index).map
            (fun j => self.queue.getD j JsValue.undefined) := by
  induction responses with
  | nil => intro index acc; simp [forEachResponse, lookedUp]
  | cons record rest ih =>
    intro index acc
    unfold forEachResponse lookedUp
    by_cases hf : record.failed = true
    · rw [if_pos hf, if_pos hf, ih]
      simp
    · rw [if_neg hf, if_neg hf, ih]

theorem lookedUp_bound (responses : List Entry) :
    ∀ (index j : Nat), j ∈ lookedUp responses index →
      index ≤ j ∧ j < index + responses.length := by
  induction responses with
  | nil => intro index j h; simp [lookedUp] at h
  | cons record rest ih =>
    intro index j h
    unfold lookedUp at h
    simp only [List.length_cons]
    by_cases hf : record.failed = true
    · rw [if_pos hf] at h
      rcases List.mem_cons.mp h with h | h
      · omega
      · have := ih (index + 1) j h
        omega
    · rw [if_neg hf] at h
      have := ih (index + 1) j h
      omega

theorem aligned_length (w : World α ε) (response : Response)
    (ha : w.aligned = true)
    (hcall : w.stream.client w.fx.calls.length = .ok response) :
    response.RequestResponses.length = w.stream.queue.length := by
  unfold World.aligned at ha
  rw [hcall] at ha
  simpa using ha

theorem writeRecords_sublist [JsValue α] (w : World α ε) (ha : w.aligned = true) :
    (writeRecords w).1.stream.queue.Sublist w.stream.queue := by
  cases hc : w.stream.client w.fx.calls.length with
  | err e =>
    rw [writeRecords_err w e hc]
  | ok response =>
    by_cases h0 : response.FailedPutCount = 0
    · rw [(writeRecords_success w response hc h0).1]
      exact List.nil_sublist _
    · rw [(writeRecords_aligned w response hc h0
        (le_of_eq (aligned_length w response ha hc))).1]
      exact failedAt_sublist _ _

theorem attemptWorlds_head (options : RetryOptions)
    (fn : World α ε → World α ε × Completion ε) (left attempt : Nat) (w : World α ε) :
    w ∈ attemptWorlds options fn left attempt w := by
  cases left with
  | zero => simp [attemptWorlds]
  | succ left =>
    unfold attemptWorlds
    cases hfn : fn w with
    | mk w1 c =>
      cases c with
      | ok u => simp
      | error e => simp

theorem attemptWorlds_ok (options : RetryOptions) (fn : World α ε → World α ε × Completion ε)
    (left attempt : Nat) (w : World α ε) (h : (fn w).2 = .ok ()) :
    attemptWorlds options fn left attempt w = [w] := by
  cases left with
  | zero => rfl
  | succ left =>
    unfold attemptWorlds
    cases hfn : fn w with
    | mk w1 c =>
      rw [hfn] at h
      cases c with
      | ok u => rfl
      | error e => cases h

theorem attemptWorlds_error (options : RetryOptions)
    (fn : World α ε → World α ε × Completion ε)
    (left attempt : Nat) (w : World α ε) (e : Failure ε) (h : (fn w).2 = .error e) :
    attemptWorlds options fn (left + 1) attempt w
      = w :: attemptWorlds options fn left (attempt + 1)
          ((fn w).1.wait (options.timeout attempt)) := by
  conv_lhs => unfold attemptWorlds
  cases hfn : fn w with
  | mk w1 c =>
    rw [hfn] at h
    cases c with
    | ok u => cases h
    | error e1 => rfl

theorem retryLoop_calls [JsValue α] (options : RetryOptions) (left : Nat) :
    ∀ (attempt : Nat) (w : World α ε),
      (retryLoop options writeRecords left attempt w).1.fx.calls
        = w.fx.calls ++ (attemptWorlds options writeRecords left attempt w).map
            (fun v => v.stream.request) := by
  induction left with
  | zero =>
    intro attempt w
    simp [retryLoop, attemptWorlds, writeRecords_calls]
  | succ left ih =>
    intro attempt w
    cases h : (writeRecords w).2 with
    | ok u =>
      rw [retryLoop_ok _ _ _ _ _ h, attemptWorlds_ok _ _ _ _ _ h, writeRecords_calls]
      rfl
    | error e =>
      rw [retryLoop_error _ _ _ _ _ e h, attemptWorlds_error _ _ _ _ _ e h, ih, wait_calls,
        writeRecords_calls]
      simp

theorem flush_calls [JsValue α] (w : World α ε) :
    (_flush w).1.fx.calls
      = w.fx.calls ++ (flushAttempts w).map (fun v => v.stream.request) := by
  by_cases hq : w.stream.queue = []
  · rw [flush_empty w hq]
    simp [flushAttempts, hq]
  · rw [flush_nonempty w hq, retryLoop_calls]
    have : w.stream.queue.length ≠ 0 := by simpa using hq
    simp [flushAttempts, this]

theorem attemptWorlds_sublist [JsValue α] (options : RetryOptions) (left : Nat) :
    ∀ (attempt : Nat) (w : World α ε),
      (∀ v ∈ attemptWorlds options writeRecords left attempt w, v.aligned = true) →
      (∀ v ∈ attemptWorlds options writeRecords left attempt w,
        v.stream.queue.Sublist w.stream.queue)
      ∧ List.Pairwise (fun a b : World α ε => b.stream.queue.Sublist a.stream.queue)
          (attemptWorlds options writeRecords left attempt w)
      ∧ (retryLoop options writeRecords left attempt w).1.stream.queue.Sublist
          w.stream.queue := by
  induction left with
  | zero =>
    intro attempt w ha
    have hw := ha w (attemptWorlds_head _ _ _ _ _)
    refine ⟨?_, ?_, writeRecords_sublist w hw⟩
    · intro v hv
      simp only [attemptWorlds, List.mem_singleton] at hv
      rw [hv]
    · simp [attemptWorlds]
  | succ left ih =>
    intro attempt w ha
    have hw := ha w (attemptWorlds_head _ _ _ _ _)
    cases h : (writeRecords w).2 with
    | ok u =>
      rw [retryLoop_ok _ _ _ _ _ h, attemptWorlds_ok _ _ _ _ _ h]
      refine ⟨?_, ?_, writeRecords_sublist w hw⟩
      · intro v hv
        simp only [List.mem_singleton] at hv
        rw [hv]
      · simp
    | error e =>
      rw [attemptWorlds_error _ _ _ _ _ e h] at ha ⊢
      rw [retryLoop_error _ _ _ _ _ e h]
      obtain ⟨i1, i2, i3⟩ := ih (attempt + 1) ((writeRecords w).1.wait (options.timeout attempt))
        (fun v hv => ha v (List.mem_cons_of_mem _ hv))
      have hstep : ((writeRecords w).1.wait (options.timeout attempt)).stream.queue.Sublist
          w.stream.queue := by
        rw [wait_stream]
        exact writeRecords_sublist w hw
      refine ⟨?_, ?_, i3.trans hstep⟩
      · intro v hv
        rcases List.mem_cons.mp hv with hv | hv
        · rw [hv]
        · exact (i1 v hv).trans hstep
      · exact List.pairwise_cons.mpr ⟨fun v hv => (i1 v hv).trans hstep, i2⟩

/-- C16: in a flush cycle each of whose responses has exactly one outcome per
record queued at its attempt, the cycle's batch calls are the requests built
at its attempts; every index at which an attempt's rebuild reads the queue lies
within the queue, and the rebuilt queue consists of the records read there; the
queue after each attempt is a sublist of the queue before it; of any two
attempts the later one's queue is a sublist of the earlier one's and its batch
is no larger; and every attempt's queue, like the final queue, is a sublist of
the queue the cycle started with. -/
theorem C16_flush_cycle_sublists [JsValue α] (w : World α ε)
    (haligned : ∀ v ∈ flushAttempts w, v.aligned = true) :
    (_flush w).1.fx.calls = w.fx.calls ++ (flushAttempts w).map (fun v => v.stream.request)
    ∧ (∀ v ∈ flushAttempts w, ∀ response,
        v.stream.client v.fx.calls.length = .ok response →
        (∀ j ∈ lookedUp response.RequestResponses 0, j < v.stream.queue.length)
        ∧ (response.FailedPutCount ≠ 0 →
            (writeRecords v).1.stream.queue
              = (lookedUp response.RequestResponses 0).map
                  (fun j => v.stream.queue.getD j JsValue.undefined)))
    ∧ (∀ v ∈ flushAttempts w, (writeRecords v).1.stream.queue.Sublist v.stream.queue)
    ∧ List.Pairwise (fun a b : World α ε => b.stream.queue.Sublist a.stream.queue)
        (flushAttempts w)
    ∧ List.Pairwise (fun a b : World α ε =>
          b.stream.request.Records.length ≤ a.stream.request.Records.length)
        (flushAttempts w)
    ∧ (∀ v ∈ flushAttempts w, v.stream.queue.Sublist w.stream.queue)
    ∧ (_flush w).1.stream.queue.Sublist w.stream.queue := by
  have hlook : ∀ v ∈ flushAttempts w, ∀ response,
      v.stream.client v.fx.calls.length = .ok response →
      (∀ j ∈ lookedUp response.RequestResponses 0, j < v.stream.queue.length)
      ∧ (response.FailedPutCount ≠ 0 →
          (writeRecords v).1.stream.queue
            = (lookedUp response.RequestResponses 0).map
                (fun j => v.stream.queue.getD j JsValue.undefined)) := by
    intro v hv response hcall
    constructor
    · intro j hj
      have := lookedUp_bound response.RequestResponses 0 j hj
      rw [aligned_length v response (haligned v hv) hcall] at this
      omega
    · intro h0
      obtain ⟨logs, hs, _⟩ := writeRecords_someFailed v response hcall h0
      rw [hs]
      simpa using forEachResponse_lookedUp v.stream response.RequestResponses 0 ([], logs)
  refine ⟨flush_calls w, hlook, fun v hv => writeRecords_sublist v (haligned v hv), ?_⟩
  by_cases hq : w.stream.queue = []
  · have hnone : flushAttempts w = [] := by simp [flushAttempts, hq]
    rw [hnone, flush_empty w hq]
    simp
  · have hlen : w.stream.queue.length ≠ 0 := by simpa using hq
    have hsome : flushAttempts w
        = attemptWorlds { retries := w.stream.maxRetries, timeout := fib w.stream.retryTimeout }
            writeRecords w.stream.maxRetries 0 w := by
      simp [flushAttempts, hlen]
    rw [hsome] at haligned ⊢
    rw [flush_nonempty w hq]
    obtain ⟨i1, i2, i3⟩ := attemptWorlds_sublist _ _ _ _ haligned
    refine ⟨i2, ?_, i1, i3⟩
    refine i2.imp ?_
    intro a b hab
    simpa [FirehoseWritable.request] using hab.length_le

/-- C16 at two records of which the second is rejected at every attempt: the
cycle's four batches have 2, 1, 1 and 1 records and the record left queued
was in the first batch. -/
theorem C16_flush_cycle_sublists_witness :
    ((_flush (World.fresh (sampleWriter shrinkingClient 6 [.num 0, .num 1]))).1.fx.calls.map
        (fun request => request.Records.length)) = [2, 1, 1, 1]
    ∧ (_flush (World.fresh (sampleWriter shrinkingClient 6
        [.num 0, .num 1]))).1.stream.queue.Sublist [.num 0, .num 1] :=
  ⟨(congrArg (List.map (fun request => request.Records.length))
      (C16_flush_cycle_sublists (World.fresh (sampleWriter shrinkingClient 6 [.num 0, .num 1]))
        (by decide)).1).trans rfl,
   (C16_flush_cycle_sublists (World.fresh (sampleWriter shrinkingClient 6 [.num 0, .num 1]))
      (by decide)).2.2.2.2.2.2⟩

/-! ## Empty batches -/

theorem failedAt_ne_nil (queue : List α) (responses : List Entry)
    (hlen : responses.length = queue.length)
    (hany : responses.any Entry.failed = true) :
    failedAt queue responses ≠ [] := by
  obtain ⟨entry, hmem, hf⟩ := List.any_eq_true.mp hany
  obtain ⟨i, hi, hget⟩ := List.getElem_of_mem hmem
  have hq : i < queue.length := by omega
  have hmem2 := failedAt_mem queue responses i queue[i] entry
    (List.getElem?_eq_getElem hq) (by rw [List.getElem?_eq_getElem hi, hget]) hf
  exact List.ne_nil_of_mem hmem2

theorem writeRecords_keeps_some [JsValue α] (w : World α ε) (e : Failure ε)
    (hq : w.stream.queue ≠ [])
    (ha : w.aligned = true) (hs : w.failureShown = true)
    (herr : (writeRecords w).2 = .error e) :
    (writeRecords w).1.stream.queue ≠ [] := by
  cases hc : w.stream.client w.fx.calls.length with
  | err e1 =>
    rw [writeRecords_err w e1 hc]
    exact hq
  | ok response =>
    by_cases h0 : response.FailedPutCount = 0
    · rw [(writeRecords_success w response hc h0).2.2.2] at herr
      cases herr
    · rw [(writeRecords_aligned w response hc h0
        (le_of_eq (aligned_length w response ha hc))).1]
      unfold World.failureShown at hs
      rw [hc] at hs
      have hany : response.RequestResponses.any Entry.failed = true := by
        simpa [h0] using hs
      exact failedAt_ne_nil _ _ (aligned_length w response ha hc) hany

theorem attemptWorlds_nonempty [JsValue α] (options : RetryOptions) (left : Nat) :
    ∀ (attempt : Nat) (w : World α ε), w.stream.queue ≠ [] →
      (∀ v ∈ attemptWorlds options writeRecords left attempt w,
        v.aligned = true ∧ v.failureShown = true) →
      ∀ v ∈ attemptWorlds options writeRecords left attempt w, v.stream.queue ≠ [] := by
  induction left with
  | zero =>
    intro attempt w hq _ v hv
    simp only [attemptWorlds, List.mem_singleton] at hv
    rw [hv]
    exact hq
  | succ left ih =>
    intro attempt w hq hall v hv
    have hw := hall w (attemptWorlds_head _ _ _ _ _)
    cases h : (writeRecords w).2 with
    | ok u =>
      rw [attemptWorlds_ok _ _ _ _ _ h] at hv
      simp only [List.mem_singleton] at hv
      rw [hv]
      exact hq
    | error e =>
      rw [attemptWorlds_error _ _ _ _ _ e h] at hall hv
      rcases List.mem_cons.mp hv with hv | hv
      · rw [hv]
        exact hq
      · exact ih (attempt + 1) _
          (by rw [wait_stream]; exact writeRecords_keeps_some w e hq hw.1 hw.2 h)
          (fun u hu => hall u (List.mem_cons_of_mem _ hu)) v hv

/-- C17, as stated, fails: one record is written to a fresh writer and the
stream is closed; the first response has one outcome for the one record, with
FailedPutCount = 1 and no error code, so the queue is rebuilt empty and the
retry issues a batch call without records (its response has no outcome, one
per submitted record again). -/
theorem C17_nonempty_batches_counterexample :
    (flushAttempts (writeAll (World.fresh (sampleWriter vagueClient 6 []))
        [.flag true]).1).all World.aligned = true
    ∧ (close (writeAll (World.fresh (sampleWriter vagueClient 6 []))
        [.flag true]).1).1.fx.calls
      = [{ Records := [⟨"true"⟩], DeliveryStreamName := "streamName" },
         { Records := [], DeliveryStreamName := "streamName" }] :=
  ⟨rfl, rfl⟩

/-- C17, amended: in a flush cycle, started by close or by a write that
reaches the high-water mark, each of whose responses has exactly one outcome
per record queued at its attempt and reports FailedPutCount != 0 only when an
outcome carries an error code, every attempt starts with a non-empty queue and
every batch call the cycle issues carries at least one record; a write that
starts no cycle issues no batch call. -/
theorem C17_nonempty_batches [JsValue α] (w : World α ε)
    (hresp : ∀ v ∈ flushAttempts w, v.aligned = true ∧ v.failureShown = true) :
    (∀ v ∈ flushAttempts w, v.stream.queue ≠ [])
    ∧ (_flush w).1.fx.calls = w.fx.calls ++ (flushAttempts w).map (fun v => v.stream.request)
    ∧ (∀ request ∈ (flushAttempts w).map (fun v => v.stream.request),
        0 < request.Records.length)
    ∧ (close w).1.fx.calls = w.fx.calls ++ (flushAttempts w).map (fun v => v.stream.request)
    ∧ (∀ (w0 : World α ε) (record : α),
        w = { stream := { w0.stream with queue := w0.stream.queue ++ [record] }
              fx := { w0.fx with
                      logs := logIf w0.stream.logger
                        ⟨.debug, "Adding to Firehose queue", .record record⟩ w0.fx.logs } } →
        (w0.stream.highWaterMark ≤ w0.stream.queue.length + 1 →
          (_write w0 record).1.fx.calls
            = w0.fx.calls ++ (flushAttempts w).map (fun v => v.stream.request))
        ∧ (w0.stream.queue.length + 1 < w0.stream.highWaterMark →
          (_write w0 record).1.fx.calls = w0.fx.calls)) := by
  have hne : ∀ v ∈ flushAttempts w, v.stream.queue ≠ [] := by
    by_cases hq : w.stream.queue = []
    · intro v hv
      simp [flushAttempts, hq] at hv
    · have hlen : w.stream.queue.length ≠ 0 := by simpa using hq
      have hsome : flushAttempts w
          = attemptWorlds
              { retries := w.stream.maxRetries, timeout := fib w.stream.retryTimeout }
              writeRecords w.stream.maxRetries 0 w := by
        simp [flushAttempts, hlen]
      rw [hsome] at hresp ⊢
      exact attemptWorlds_nonempty _ _ _ _ hq hresp
  refine ⟨hne, flush_calls w, ?_, flush_calls w, ?_⟩
  · intro request hreq
    obtain ⟨v, hv, rfl⟩ := List.mem_map.mp hreq
    have := hne v hv
    simpa [FirehoseWritable.request, List.length_pos] using this
  · intro w0 record hw
    constructor
    · intro hreach
      rw [write_reach w0 record hreach, ← hw, flush_calls w, hw]
    · intro hbelow
      rw [write_below w0 record hbelow]

/-- C17 (amended) at two records of which the second is rejected at every
attempt: the four batch calls carry 2, 1, 1 and 1 records. -/
theorem C17_nonempty_batches_witness :
    ((close (World.fresh (sampleWriter shrinkingClient 6 [.num 0, .num 1]))).1.fx.calls.map
        (fun request => decide (0 < request.Records.length))) = [true, true, true, true] :=
  (congrArg (List.map (fun request => decide (0 < request.Records.length)))
    (C17_nonempty_batches (World.fresh (sampleWriter shrinkingClient 6 [.num 0, .num 1]))
      (by decide)).2.2.2.1).trans rfl

end Firehose
